import Mathlib

/-!
# Verification of namedot (authoritative Geo-DNS server)

A shallow embedding, in Lean 4, of the parts of the `namedot` repository that
the specification's claims are about:

* the string-normalization helpers (`zoneio.NormalizeFQDN`,
  `zoneio.NormalizeRRSetName`, the REST handlers' `fqdn`);
* the Geo record selector (`dns.selectGeoRecords`);
* the SOA serial bump (`db.BumpSOASerial`, `db.BumpSOASerialAuto`);
* the JSON zone import (`zoneio.ImportJSON`);
* the template application (`web.applyTemplate`);
* the config defaulting in `config.Load`;
* the control-flow skeletons of the DNS handler (`dns.serveDNS`,
  `dns.lookup`) and of the mutating REST handlers.

Go strings are byte strings; they are modelled here as `List Nat` (one entry
per byte).  All inputs occurring in the repository are ASCII, so the Go
Unicode functions (`strings.ToLower`, `strings.TrimSpace`,
`strings.EqualFold`) are modelled by their ASCII restrictions.
-/

namespace Namedot

/-! ## Byte-string primitives (models of Go `strings` functions) -/

/-- A Go string, as its list of bytes. -/
abbrev GoStr := List Nat

/-- Converts a Lean string literal (assumed ASCII) to its byte list. -/
def gostr (s : String) : GoStr := s.data.map Char.toNat

/-- ASCII lower-casing of one byte (model of `unicode.ToLower` on ASCII). -/
def lowerByte (c : Nat) : Nat := if 65 ≤ c ∧ c ≤ 90 then c + 32 else c

/-- ASCII upper-casing of one byte. -/
def upperByte (c : Nat) : Nat := if 97 ≤ c ∧ c ≤ 122 then c - 32 else c

/-- Model of `strings.ToLower` (ASCII). -/
def toLowerL (s : GoStr) : GoStr := s.map lowerByte

/-- Model of `strings.ToUpper` (ASCII). -/
def toUpperL (s : GoStr) : GoStr := s.map upperByte

/-- ASCII whitespace, as trimmed by `strings.TrimSpace`. -/
def isSpaceB (c : Nat) : Bool := c = 32 ∨ c = 9 ∨ c = 10 ∨ c = 13 ∨ c = 11 ∨ c = 12

/-- Model of `strings.TrimSpace` (ASCII): strip leading and trailing whitespace. -/
def trimSpace (s : GoStr) : GoStr :=
  ((s.dropWhile isSpaceB).reverse.dropWhile isSpaceB).reverse

/-- Model of `strings.HasSuffix`: `len(s) ≥ len(suf)` and the last
`len(suf)` bytes of `s` equal `suf`. -/
def hasSuffix (s suf : GoStr) : Bool :=
  decide (suf.length ≤ s.length) && (s.drop (s.length - suf.length) == suf)

/-- Model of `strings.TrimSuffix`. -/
def trimSuffix (s suf : GoStr) : GoStr :=
  if hasSuffix s suf then s.take (s.length - suf.length) else s

/-- Model of `strings.EqualFold` (ASCII restriction). -/
def eqFold (a b : GoStr) : Bool := toLowerL a == toLowerL b

/-- The byte string `"."`. -/
def dotS : GoStr := [46]

/-- The byte string `"@"`. -/
def atS : GoStr := [64]

/-- The byte string `".@"`. -/
def dotAtS : GoStr := [46, 64]

/-! ## Name normalization (`internal/server/rest/zoneio/json.go`, REST `fqdn`) -/

/-- Model of `zoneio.NormalizeFQDN`:
lower-case, trim, and append a trailing dot when non-empty. -/
def NormalizeFQDN (name : GoStr) : GoStr :=
  let n := toLowerL (trimSpace name)
  if n ≠ [] ∧ ¬ hasSuffix n dotS then n ++ dotS else n

/-- The candidate name computed by `zoneio.NormalizeRRSetName` before its
zone-membership validation (the body of the function up to the final check). -/
def normalizeRRSetCandidate (name zoneName : GoStr) : GoStr :=
  let n := toLowerL (trimSpace name)
  let zone := trimSuffix (toLowerL (trimSpace zoneName)) dotS
  let zoneFQDN := zone ++ dotS
  if n = [] ∨ n = atS then zoneFQDN
  else
    let n := if hasSuffix n dotAtS then trimSuffix n dotAtS else n
    if hasSuffix n dotS then n
    else if n = zone then zoneFQDN
    else if hasSuffix n (dotS ++ zone) then n ++ dotS
    else n ++ dotS ++ zoneFQDN

/-- The validation at the end of `zoneio.NormalizeRRSetName`: the result must
be the zone apex or end in `"." + zoneFQDN`. -/
def belongsToZone (result zoneName : GoStr) : Bool :=
  let zoneFQDN := trimSuffix (toLowerL (trimSpace zoneName)) dotS ++ dotS
  result == zoneFQDN || hasSuffix result (dotS ++ zoneFQDN)

/-- Model of `zoneio.NormalizeRRSetName` (`json.go`): normalize the record
name against the zone, `none` on the "does not belong to zone" error.
The `n = [] ∨ n = "@"` branch returns the apex directly in the source; the
apex trivially passes validation, so validating it uniformly is faithful. -/
def NormalizeRRSetName (name zoneName : GoStr) : Option GoStr :=
  let result := normalizeRRSetCandidate name zoneName
  if belongsToZone result zoneName then some result else none

/-- Model of the REST handlers' `fqdn` helper (`internal/server/rest`):
lower-case, strip a trailing `".@"` and a trailing dot, then append the zone. -/
def fqdn (name zone : GoStr) : GoStr :=
  let n := toLowerL name
  let n := if hasSuffix n dotAtS then trimSuffix n dotAtS else n
  let n := trimSuffix n dotS
  let z := trimSuffix (toLowerL zone) dotS
  if n = [] ∨ n = atS then z ++ dotS else n ++ dotS ++ z ++ dotS

/-- The three-way branch at the end of `NormalizeRRSetName` (after the `".@"`
handling), abstracted over the already-processed name `n'`. -/
def innerChain (n' zone : GoStr) : GoStr :=
  if hasSuffix n' dotS then n'
  else if n' = zone then zone ++ dotS
  else if hasSuffix n' (dotS ++ zone) then n' ++ dotS
  else n' ++ dotS ++ (zone ++ dotS)

/-! ## Data model (`internal/db/models.go`) and the Geo selector
(`internal/server/dns`) -/

/-- Model of `db.RData`: rendered record data plus the four optional
Geo-selection attributes. -/
structure RData where
  id : Nat := 0
  data : GoStr := []
  country : Option GoStr := none
  continent : Option GoStr := none
  asn : Option Int := none
  subnet : Option GoStr := none
deriving DecidableEq

/-- Abstract model of `netip.Addr`: `valid` is `ip.IsValid()`, and
`inPrefix s` holds when `netip.ParsePrefix(s)` succeeds and the resulting
prefix contains the address (the two `netip` facts `selectGeoRecords`
consults). -/
structure Addr where
  valid : Bool
  inPrefix : GoStr → Bool

/-- Model of `geoip.Info`: the result of the Geo lookup. -/
structure Info where
  country : GoStr
  continent : GoStr
  asn : Int

/-- The subnet rule of the selector loop: the record has a subnet whose
parsed prefix contains the client IP. -/
def matchSubnet (ip : Addr) (r : RData) : Bool :=
  match r.subnet with
  | some s => ip.inPrefix s
  | none => false

/-- The ASN rule: the looked-up ASN is nonzero and equals the record's. -/
def matchASN (g : Info) (r : RData) : Bool :=
  match r.asn with
  | some a => decide (g.asn ≠ 0) && (a == g.asn)
  | none => false

/-- The country rule: both non-empty and equal case-insensitively. -/
def matchCountry (g : Info) (r : RData) : Bool :=
  match r.country with
  | some c => decide (g.country ≠ []) && eqFold c g.country
  | none => false

/-- The continent rule: both non-empty and equal case-insensitively. -/
def matchContinent (g : Info) (r : RData) : Bool :=
  match r.continent with
  | some c => decide (g.continent ≠ []) && eqFold c g.continent
  | none => false

/-- A generic record: all four Geo attributes absent. -/
def isGeneric (r : RData) : Bool :=
  r.country.isNone && r.continent.isNone && r.asn.isNone && r.subnet.isNone

/-- The single pass of `selectGeoRecords` that distributes each record into
the first of the five buckets it matches (the `for` loop with `continue`). -/
def geoBuckets (ip : Addr) (g : Info) :
    List RData → List RData × List RData × List RData × List RData × List RData
  | [] => ([], [], [], [], [])
  | r :: rest =>
      let bs := geoBuckets ip g rest
      if matchSubnet ip r then (r :: bs.1, bs.2.1, bs.2.2.1, bs.2.2.2.1, bs.2.2.2.2)
      else if matchASN g r then (bs.1, r :: bs.2.1, bs.2.2.1, bs.2.2.2.1, bs.2.2.2.2)
      else if matchCountry g r then (bs.1, bs.2.1, r :: bs.2.2.1, bs.2.2.2.1, bs.2.2.2.2)
      else if matchContinent g r then (bs.1, bs.2.1, bs.2.2.1, r :: bs.2.2.2.1, bs.2.2.2.2)
      else if isGeneric r then (bs.1, bs.2.1, bs.2.2.1, bs.2.2.2.1, r :: bs.2.2.2.2)
      else bs

/-- Model of `dns.selectGeoRecords`: empty list, invalid IP, then the five
buckets in priority order, falling back to the full list. -/
def selectGeoRecords (recs : List RData) (ip : Addr) (g : Info) : List RData × GoStr :=
  if recs = [] then (recs, gostr "none")
  else if ¬ ip.valid then
    let out := recs.filter isGeneric
    if out ≠ [] then (out, gostr "generic") else (recs, gostr "all")
  else
    let bs := geoBuckets ip g recs
    if bs.1 ≠ [] then (bs.1, gostr "subnet")
    else if bs.2.1 ≠ [] then (bs.2.1, gostr "asn")
    else if bs.2.2.1 ≠ [] then (bs.2.2.1, gostr "country")
    else if bs.2.2.2.1 ≠ [] then (bs.2.2.2.1, gostr "continent")
    else if bs.2.2.2.2 ≠ [] then (bs.2.2.2.2, gostr "generic")
    else (recs, gostr "all")

/-- The five selection rules, in the priority order stated by the spec. -/
inductive GeoRule | subnet | asn | country | continent | generic
deriving DecidableEq

/-- Spec-side definition (from the claim's words): the first rule a
candidate matches, in the order subnet, ASN, country, continent,
all-attributes-absent; `none` when it matches no rule. -/
def assignRule (ip : Addr) (g : Info) (r : RData) : Option GeoRule :=
  if matchSubnet ip r then some GeoRule.subnet
  else if matchASN g r then some GeoRule.asn
  else if matchCountry g r then some GeoRule.country
  else if matchContinent g r then some GeoRule.continent
  else if isGeneric r then some GeoRule.generic
  else none

/-- Spec-side definition (from the claim's words) of the Geo selection:
partition the candidates by their first matching rule, keep the original
order inside each bucket (`filter`), and return the first non-empty bucket
in priority order; the stated special cases for the empty list, an invalid
client IP, and the all-buckets-empty fallback. -/
def geoSelectSpec (recs : List RData) (ip : Addr) (g : Info) : List RData × GoStr :=
  if recs = [] then ([], gostr "none")
  else if ¬ ip.valid then
    if recs.filter isGeneric ≠ [] then (recs.filter isGeneric, gostr "generic")
    else (recs, gostr "all")
  else
    let bs := recs.filter (fun r => assignRule ip g r == some GeoRule.subnet)
    let ba := recs.filter (fun r => assignRule ip g r == some GeoRule.asn)
    let bc := recs.filter (fun r => assignRule ip g r == some GeoRule.country)
    let bt := recs.filter (fun r => assignRule ip g r == some GeoRule.continent)
    let bg := recs.filter (fun r => assignRule ip g r == some GeoRule.generic)
    if bs ≠ [] then (bs, gostr "subnet")
    else if ba ≠ [] then (ba, gostr "asn")
    else if bc ≠ [] then (bc, gostr "country")
    else if bt ≠ [] then (bt, gostr "continent")
    else if bg ≠ [] then (bg, gostr "generic")
    else (recs, gostr "all")

/-! ## Zones, RRSets and the store table -/

/-- Model of `db.Zone` (the fields the verified operations read). -/
structure Zone where
  id : Nat
  name : GoStr
deriving DecidableEq

/-- Model of a `db.RRSet` row together with its owned `db.RData` rows
(deleting the row deletes its records, as the transactions do).  The
`(zone_id, name, type)` triple carries a unique index in the schema;
the row's own numeric id is omitted and `First`/`Save` on the triple is
modelled as acting on the first (hence only) matching row. -/
structure RRSet where
  zoneID : Nat
  name : GoStr
  ty : GoStr
  ttl : Nat
  records : List RData
deriving DecidableEq

/-- `First` on `(zone_id, name, type)`. -/
def findRRSet (tbl : List RRSet) (zoneID : Nat) (nm ty : GoStr) : Option RRSet :=
  tbl.find? (fun s => decide (s.zoneID = zoneID ∧ s.name = nm ∧ s.ty = ty))

/-- Replace the records and TTL of the (unique) row matching the triple:
the `delete records / Save(existing)` step of the import upsert. -/
def updateRRSet (zoneID : Nat) (nm ty : GoStr) (ttl : Nat) (recs : List RData) :
    List RRSet → List RRSet
  | [] => []
  | s :: rest =>
      if s.zoneID = zoneID ∧ s.name = nm ∧ s.ty = ty
      then { s with ttl := ttl, records := recs } :: rest
      else s :: updateRRSet zoneID nm ty ttl recs rest

/-! ## JSON import (`zoneio.ImportJSON`) -/

/-- The body of `ImportJSON`'s loop over `src.RRSets`: normalize the name
(abort the transaction on error), uppercase the type, default the TTL,
clear record ids, then upsert by `(zone_id, name, type)`. -/
def importLoop (dstID : Nat) (dstName : GoStr) (defaultTTL : Nat) :
    List RRSet → List RRSet → Option (List RRSet)
  | tbl, [] => some tbl
  | tbl, rs :: rest =>
      match NormalizeRRSetName rs.name dstName with
      | none => none
      | some nm =>
          let ty := toUpperL rs.ty
          let ttl := if rs.ttl = 0 ∧ defaultTTL > 0 then defaultTTL else rs.ttl
          let recs := rs.records.map (fun r => { r with id := 0 })
          match findRRSet tbl dstID nm ty with
          | some _ =>
              importLoop dstID dstName defaultTTL (updateRRSet dstID nm ty ttl recs tbl) rest
          | none =>
              importLoop dstID dstName defaultTTL
                (tbl ++ [{ zoneID := dstID, name := nm, ty := ty, ttl := ttl,
                           records := recs }]) rest

/-- Model of `zoneio.ImportJSON` (`json.go`): one transaction; in `replace`
mode first delete every RRSet (and its records) of the destination zone;
then upsert each incoming RRSet; `none` models the rolled-back transaction
(no change committed). -/
def ImportJSON (tbl : List RRSet) (dst : Zone) (src : List RRSet)
    (mode : GoStr) (defaultTTL : Nat) : Option (List RRSet) :=
  let tbl := if mode = gostr "replace" then tbl.filter (fun s => s.zoneID ≠ dst.id) else tbl
  importLoop dst.id dst.name defaultTTL tbl src

/-- Spec-side view: the normalized form of one incoming RRSet (name
normalized against the zone, type uppercased, TTL defaulted, record ids
cleared), `none` when normalization rejects the name. -/
def normalizeIncoming (dstID : Nat) (dstName : GoStr) (defaultTTL : Nat)
    (rs : RRSet) : Option RRSet :=
  (NormalizeRRSetName rs.name dstName).map (fun nm =>
    { zoneID := dstID, name := nm, ty := toUpperL rs.ty,
      ttl := if rs.ttl = 0 ∧ defaultTTL > 0 then defaultTTL else rs.ttl,
      records := rs.records.map (fun r => { r with id := 0 }) })

/-- Spec-side intermediate: the import loop after normalization has been
carried out, acting on already-normalized incoming rows. -/
def upsertLoop (dstID : Nat) : List RRSet → List RRSet → List RRSet
  | tbl, [] => tbl
  | tbl, n :: rest =>
      if (findRRSet tbl dstID n.name n.ty).isSome
      then upsertLoop dstID (updateRRSet dstID n.name n.ty n.ttl n.records tbl) rest
      else upsertLoop dstID (tbl ++ [n]) rest

/-- Spec-side: how one stored row is affected by the incoming set — a row
of the zone matched by an incoming RRSet gets its TTL and records, any
other row is untouched. -/
def specMapF (dstID : Nat) (nsrc : List RRSet) (s : RRSet) : RRSet :=
  if s.zoneID = dstID then
    match nsrc.find? (fun n => n.name == s.name && n.ty == s.ty) with
    | some n => { s with ttl := n.ttl, records := n.records }
    | none => s
  else s

/-- Spec-side: an incoming RRSet with no matching stored row (to be
created). -/
def notInTbl (dstID : Nat) (tbl : List RRSet) (n : RRSet) : Bool :=
  ¬ tbl.any (fun s => decide (s.zoneID = dstID ∧ s.name = n.name ∧ s.ty = n.ty))

/-- Spec-side definition (from the claim's words) of upsert-mode import:
each existing RRSet of the zone matched by an incoming one gets the
incoming TTL and records, every other existing RRSet is untouched, and
each unmatched incoming RRSet is created. -/
def upsertSpec (tbl : List RRSet) (dstID : Nat) (nsrc : List RRSet) : List RRSet :=
  tbl.map (specMapF dstID nsrc) ++ nsrc.filter (notInTbl dstID tbl)

/-- The effect of `updateRRSet` on a single row, when the key is unique. -/
def updKey (dstID : Nat) (nm ty : GoStr) (ttl : Nat) (recs : List RData)
    (s : RRSet) : RRSet :=
  if s.zoneID = dstID ∧ s.name = nm ∧ s.ty = ty
  then { s with ttl := ttl, records := recs } else s

/-- Spec-side view: all incoming RRSets normalized in order, `none` as soon
as one of them fails normalization. -/
def normalizeList (dstID : Nat) (dstName : GoStr) (defaultTTL : Nat) :
    List RRSet → Option (List RRSet)
  | [] => some []
  | rs :: rest =>
      match normalizeIncoming dstID dstName defaultTTL rs,
            normalizeList dstID dstName defaultTTL rest with
      | some n, some ns => some (n :: ns)
      | _, _ => none

/-- The store's unique index on `(zone_id, name, type)`, as seen by one
zone: no key occurs on two rows. -/
def KeyUnique (dstID : Nat) (tbl : List RRSet) : Prop :=
  ∀ nm ty : GoStr,
    (tbl.filter (fun s => decide (s.zoneID = dstID ∧ s.name = nm ∧ s.ty = ty))).length ≤ 1

/-- Concrete store used to exercise the import model: one RRSet of the
destination zone. -/
def c3tbl : List RRSet :=
  [{ zoneID := 1, name := gostr "a.example.com.", ty := gostr "A", ttl := 300,
     records := [{ data := gostr "1.2.3.4" }] }]

/-- Concrete import payload: a relative lowercase-typed RRSet with TTL 0
and a stale record id. -/
def c3src : List RRSet :=
  [{ zoneID := 9, name := gostr "a", ty := gostr "a", ttl := 0,
     records := [{ id := 7, data := gostr "5.6.7.8" }] }]

/-- The normalized form of `c3src` against zone `example.com.` with default
TTL 120. -/
def c3nsrc : List RRSet :=
  [{ zoneID := 1, name := gostr "a.example.com.", ty := gostr "A", ttl := 120,
     records := [{ data := gostr "5.6.7.8" }] }]

/-! ## Integer parsing and formatting (`strconv`, for the SOA serial) -/

/-- Accumulates decimal digits; `none` on the first non-digit byte. -/
def digitsValAux : GoStr → Nat → Option Nat
  | [], acc => some acc
  | c :: rest, acc =>
      if 48 ≤ c ∧ c ≤ 57 then digitsValAux rest (acc * 10 + (c - 48)) else none

/-- Model of `strconv.ParseInt(s, 10, 64)`: optional sign, at least one
digit, and the int64 range check (out of range is an error). -/
def parseInt64 (s : GoStr) : Option Int :=
  match s with
  | [] => none
  | c :: rest =>
      if c = 43 then
        if rest = [] then none else
        match digitsValAux rest 0 with
        | some n => if n ≤ 2 ^ 63 - 1 then some (n : Int) else none
        | none => none
      else if c = 45 then
        if rest = [] then none else
        match digitsValAux rest 0 with
        | some n => if n ≤ 2 ^ 63 then some (-(n : Int)) else none
        | none => none
      else
        match digitsValAux (c :: rest) 0 with
        | some n => if n ≤ 2 ^ 63 - 1 then some (n : Int) else none
        | none => none

/-- Decimal digits of `n`, most significant first; the fuel argument only
bounds the recursion depth and any `fuel > n` is enough. -/
def natDigitsAux : Nat → Nat → GoStr
  | 0, _ => []
  | fuel + 1, n => if n = 0 then [] else natDigitsAux fuel (n / 10) ++ [48 + n % 10]

/-- Decimal representation of a natural number. -/
def formatNat (n : Nat) : GoStr := if n = 0 then [48] else natDigitsAux (n + 1) n

/-- Model of `strconv.FormatInt(m, 10)`. -/
def formatInt64 (m : Int) : GoStr :=
  if m < 0 then 45 :: formatNat m.natAbs else formatNat m.toNat

/-- Two's-complement wrap-around of Go's `int64` increment. -/
def wrap64 (x : Int) : Int := (x + 2 ^ 63) % 2 ^ 64 - 2 ^ 63

/-! ## Fields splitting and joining (`strings.Fields`, `strings.Join`) -/

/-- `strings.Fields`: split around runs of whitespace.  The accumulator
holds the current field reversed. -/
def fieldsAux : GoStr → GoStr → List GoStr
  | [], acc => if acc = [] then [] else [acc.reverse]
  | c :: rest, acc =>
      if isSpaceB c then
        if acc = [] then fieldsAux rest [] else acc.reverse :: fieldsAux rest []
      else fieldsAux rest (c :: acc)

/-- Model of `strings.Fields`. -/
def fields (s : GoStr) : List GoStr := fieldsAux s []

/-- Model of `strings.Join(parts, " ")`. -/
def joinSpace : List GoStr → GoStr
  | [] => []
  | [p] => p
  | p :: q :: rest => p ++ [32] ++ joinSpace (q :: rest)

/-! ## Placeholder substitution (`strings.ReplaceAll`) -/

/-- Fuel-driven body of `replaceAll`; the fuel starts at the string length
and every step consumes at least one byte, so it never runs out. -/
def replaceAllFuel (pat rep : GoStr) : Nat → GoStr → GoStr
  | _, [] => []
  | 0, s => s
  | fuel + 1, c :: rest =>
      if pat.isPrefixOf (c :: rest) then
        rep ++ replaceAllFuel pat rep fuel ((c :: rest).drop pat.length)
      else c :: replaceAllFuel pat rep fuel rest

/-- Model of `strings.ReplaceAll(s, pat, rep)` for a non-empty pattern
(Go's behaviour for the empty pattern — inserting between characters — is
never exercised here: the patterns are `"{zone}"` and `"{domain}"`). -/
def replaceAll (s pat rep : GoStr) : GoStr :=
  if pat = [] then s else replaceAllFuel pat rep s.length s

/-! ## SOA serial maintenance (`internal/db`, `BumpSOASerial*`) -/

/-- `Where("zone_id = ? AND type = ?", zoneID, "SOA").Limit(1).Find`. -/
def findSOA (tbl : List RRSet) (zoneID : Nat) : Option RRSet :=
  tbl.find? (fun s => decide (s.zoneID = zoneID ∧ s.ty = gostr "SOA"))

/-- Model of `db.resolveSOAName`. -/
def resolveSOAName (input zone fallback : GoStr) : GoStr :=
  let v := trimSpace input
  let v := if v = [] then fallback else v
  let z := trimSuffix (toLowerL zone) dotS
  let v := replaceAll v (gostr "{zone}") z
  let v := toLowerL (trimSpace v)
  if ¬ hasSuffix v dotS then v ++ dotS else v

/-- `db.Model(&RData{}).Where("id = ?", rid).Update("data", newData)`:
rewrite the data of every record row with the given id. -/
def updateRecordData (tbl : List RRSet) (rid : Nat) (newData : GoStr) : List RRSet :=
  tbl.map (fun s =>
    { s with records := s.records.map (fun r =>
        if r.id = rid then { r with data := newData } else r) })

/-- The serial rewrite of `BumpSOASerialAuto` on an already-split SOA data:
resolve MNAME/RNAME overrides, then increment a parsable serial (with
int64 wrap-around) or reset it to the epoch. -/
def bumpParts (parts : List GoStr) (zname primary hostmaster : GoStr) (now : Int) :
    List GoStr :=
  let parts := if primary ≠ []
    then parts.set 0 (resolveSOAName primary zname (parts.getD 0 [])) else parts
  let parts := if hostmaster ≠ []
    then parts.set 1 (resolveSOAName hostmaster zname (parts.getD 1 [])) else parts
  parts.set 2 (match parseInt64 (parts.getD 2 []) with
    | some n => formatInt64 (wrap64 (n + 1))
    | none => formatInt64 now)

/-- The default SOA RRSet synthesized by `BumpSOASerialAuto` when the zone
has none: default timers 7200/3600/1209600/300, TTL 3600, serial = epoch.
The created record's DB-assigned id is modelled as 0. -/
def defaultSOARRSet (z : Zone) (primary hostmaster : GoStr) (now : Int) : RRSet :=
  let zname := trimSuffix (toLowerL z.name) dotS
  { zoneID := z.id, name := zname ++ dotS, ty := gostr "SOA", ttl := 3600,
    records := [{ id := 0,
                  data := joinSpace [resolveSOAName primary zname (gostr "ns1.{zone}"),
                    resolveSOAName hostmaster zname (gostr "hostmaster.{zone}"),
                    formatInt64 now, gostr "7200", gostr "3600", gostr "1209600",
                    gostr "300"] }] }

/-- The creation half of `BumpSOASerialAuto`: when `auto` is set, insert
the default SOA; the `db.Create` error (in particular a unique-index
violation) is ignored by the source, modelled as leaving the table
unchanged when a `(zone, apex, SOA)` row already exists. -/
def createSOAIfAuto (tbl : List RRSet) (z : Zone) (auto : Bool)
    (primary hostmaster : GoStr) (now : Int) : List RRSet :=
  if ¬ auto then tbl
  else
    let rs := defaultSOARRSet z primary hostmaster now
    if tbl.any (fun s => decide (s.zoneID = rs.zoneID ∧ s.name = rs.name ∧ s.ty = rs.ty))
    then tbl
    else tbl ++ [rs]

/-- Model of `db.BumpSOASerialAuto`: find the zone's SOA (first row); if
absent, or it has no records, synthesize one when `auto`; otherwise split
its data, give up silently on fewer than 7 fields, and rewrite the record
with the bumped serial.  `now` stands for `time.Now().Unix()`. -/
def BumpSOASerialAuto (tbl : List RRSet) (z : Zone) (auto : Bool)
    (primary hostmaster : GoStr) (now : Int) : List RRSet :=
  match findSOA tbl z.id with
  | none => createSOAIfAuto tbl z auto primary hostmaster now
  | some soa =>
      match soa.records with
      | [] => createSOAIfAuto tbl z auto primary hostmaster now
      | r0 :: _ =>
          let parts := fields r0.data
          if parts.length < 7 then tbl
          else
            let zname := trimSuffix (toLowerL z.name) dotS
            updateRecordData tbl r0.id (joinSpace (bumpParts parts zname primary hostmaster now))

/-- Model of `db.BumpSOASerial`: like the bump half of the auto variant but
without MNAME/RNAME overrides and without synthesis. -/
def BumpSOASerial (tbl : List RRSet) (zoneID : Nat) (now : Int) : List RRSet :=
  match findSOA tbl zoneID with
  | none => tbl
  | some soa =>
      match soa.records with
      | [] => tbl
      | r0 :: _ =>
          let parts := fields r0.data
          if parts.length < 7 then tbl
          else
            updateRecordData tbl r0.id (joinSpace (parts.set 2
              (match parseInt64 (parts.getD 2 []) with
               | some n => formatInt64 (wrap64 (n + 1))
               | none => formatInt64 now)))

/-- Spec-side observer: how many SOA RRSets a zone has. -/
def countSOA (tbl : List RRSet) (zoneID : Nat) : Nat :=
  (tbl.filter (fun s => decide (s.zoneID = zoneID ∧ s.ty = gostr "SOA"))).length

/-- Spec-side observer: the serial field (third whitespace-separated field)
of the zone's first SOA record. -/
def soaSerial (tbl : List RRSet) (zoneID : Nat) : Option GoStr :=
  match findSOA tbl zoneID with
  | none => none
  | some soa =>
      match soa.records with
      | [] => none
      | r0 :: _ => some ((fields r0.data).getD 2 [])

/-! ## Template application (`web.applyTemplate`) -/

/-- Model of `db.TemplateRecord`. -/
structure TemplateRecord where
  name : GoStr
  ty : GoStr
  ttl : Nat
  data : GoStr
  country : Option GoStr := none
  continent : Option GoStr := none
  asn : Option Int := none
  subnet : Option GoStr := none
deriving DecidableEq

/-- The record name computed by `applyTemplate` for one template record:
`{domain}` substituted, lowercased, trimmed, dot-terminated.  (Unlike the
REST pipeline, `@` is not expanded here.) -/
def templateRecName (domain : GoStr) (tr : TemplateRecord) : GoStr :=
  let name1 := toLowerL (trimSpace (replaceAll tr.name (gostr "{domain}") domain))
  if ¬ hasSuffix name1 dotS then name1 ++ dotS else name1

/-- `db.Create(&record)` with `RRSetID := rrset.ID`: append the record row
to the (first, hence unique) RRSet matching the triple. -/
def appendRecordToRRSet (zoneID : Nat) (nm ty : GoStr) (rec : RData) :
    List RRSet → List RRSet
  | [] => []
  | s :: rest =>
      if s.zoneID = zoneID ∧ s.name = nm ∧ s.ty = ty
      then { s with records := s.records ++ [rec] } :: rest
      else s :: appendRecordToRRSet zoneID nm ty rec rest

/-- One iteration of `applyTemplate`'s loop: find or create the RRSet for
the substituted name and the template record's type (type not uppercased,
TTL only taken on creation), then unconditionally create the record row. -/
def applyTemplateStep (zoneID : Nat) (domain : GoStr) (tbl : List RRSet)
    (tr : TemplateRecord) : List RRSet :=
  let name := templateRecName domain tr
  let rec0 : RData := { id := 0, data := replaceAll tr.data (gostr "{domain}") domain,
                        country := tr.country, continent := tr.continent,
                        asn := tr.asn, subnet := tr.subnet }
  let tbl := if (findRRSet tbl zoneID name tr.ty).isSome then tbl
    else tbl ++ [{ zoneID := zoneID, name := name, ty := tr.ty, ttl := tr.ttl,
                   records := [] }]
  appendRecordToRRSet zoneID name tr.ty rec0 tbl

/-- Model of `web.applyTemplate` (`templates_handlers.go`): substitute
`{domain}` (the zone name without trailing dot) and apply every template
record in order. -/
def applyTemplate (tbl : List RRSet) (zoneID : Nat) (zoneName : GoStr)
    (records : List TemplateRecord) : List RRSet :=
  let domain := trimSuffix zoneName dotS
  records.foldl (applyTemplateStep zoneID domain) tbl

/-- Spec-side observer: total number of record rows in the table. -/
def totalRecords (tbl : List RRSet) : Nat := (tbl.map (fun s => s.records.length)).sum

/-- Spec-side observer: the RRSet rows without their records. -/
def rrsetKey (s : RRSet) : Nat × GoStr × GoStr × Nat := (s.zoneID, s.name, s.ty, s.ttl)

/-! ## Configuration loading (`internal/config.Load`) -/

/-- Model of `config.PerformanceConfig`. -/
structure PerformanceConfig where
  cacheSize : Int
  dnsTimeoutSec : Int
  forwarderTimeoutSec : Int
deriving DecidableEq

/-- Model of `config.ReplicationConfig`. -/
structure ReplicationConfig where
  mode : GoStr
  masterURL : GoStr
  syncIntervalSec : Int
deriving DecidableEq

/-- Model of `config.SOAConfig`. -/
structure SOAConfig where
  primary : GoStr
  hostmaster : GoStr
  autoOnMissing : Bool
deriving DecidableEq

/-- Model of `config.AdminConfig` (the field `Load` touches). -/
structure AdminConfig where
  enabled : Bool
deriving DecidableEq

/-- Model of `config.Config` (the fields the default filling reads or
writes). -/
structure Config where
  listen : GoStr
  restListen : GoStr
  tlsCertFile : GoStr
  tlsKeyFile : GoStr
  tlsReloadSec : Int
  autoSOAOnMissing : Bool
  soa : SOAConfig
  performance : PerformanceConfig
  admin : AdminConfig
  replication : ReplicationConfig
deriving DecidableEq

/-- Model of `Config.IsTLSEnabled`. -/
def isTLSEnabled (c : Config) : Bool := c.tlsCertFile ≠ [] && c.tlsKeyFile ≠ []

/-- The default filling performed by `config.Load` between YAML decoding
and validation.  Every condition in the source reads only fields that no
earlier default writes, so the sequential updates are recorded as one
simultaneous record update. -/
def applyDefaults (c : Config) : Config :=
  { c with
    restListen := if c.restListen = [] then gostr ":8080" else c.restListen,
    listen := if c.listen = [] then gostr ":53" else c.listen,
    performance := { c.performance with
      cacheSize := if c.performance.cacheSize = 0 then 1024 else c.performance.cacheSize,
      dnsTimeoutSec := if c.performance.dnsTimeoutSec = 0 then 2
        else c.performance.dnsTimeoutSec,
      forwarderTimeoutSec := if c.performance.forwarderTimeoutSec = 0 then 2
        else c.performance.forwarderTimeoutSec },
    replication := { c.replication with
      syncIntervalSec := if c.replication.syncIntervalSec = 0 ∧
          c.replication.mode = gostr "slave" then 60 else c.replication.syncIntervalSec },
    tlsReloadSec := if c.tlsReloadSec = 0 ∧ isTLSEnabled c then 3600 else c.tlsReloadSec,
    soa := { c.soa with
      autoOnMissing := if ¬ c.soa.autoOnMissing ∧ c.autoSOAOnMissing then true
        else c.soa.autoOnMissing },
    admin := { c.admin with
      enabled := if c.replication.mode = gostr "slave" ∧ c.admin.enabled then false
        else c.admin.enabled } }

/-- Modelled from the spec: the Response Cache (package `internal/cache`,
whose source is not under `src/`).  Per §4.3 of the spec it is a bounded
TTL map: `cache.New(size)` with size zero disables caching entirely (`Set`
stores nothing); otherwise `Set` stores the entry, evicting the oldest
when full. -/
structure Cache where
  size : Int
  entries : List (GoStr × Nat)
deriving DecidableEq

/-- Modelled from the spec: `cache.New(size)`. -/
def cacheNew (size : Int) : Cache := { size := size, entries := [] }

/-- Modelled from the spec: `Cache.Set` (ttl in seconds). -/
def cacheSet (c : Cache) (key : GoStr) (ttl : Nat) : Cache :=
  if c.size ≤ 0 then c
  else if (c.entries.length : Int) < c.size then { c with entries := c.entries ++ [(key, ttl)] }
  else { c with entries := c.entries.tail ++ [(key, ttl)] }

/-- Modelled from the spec: `Cache.Get`, returning the stored ttl. -/
def cacheGet (c : Cache) (key : GoStr) : Option Nat :=
  (c.entries.find? (fun e => e.1 == key)).map Prod.snd

/-! ## Control-plane handler skeletons (`internal/server/rest`)

Each handler is modelled as its control flow over the outcomes of its
store operations: the booleans stand for the individual `err == nil`
checks in the source, `hasDNS` for `s.dnsServer != nil`, and the result
records the HTTP status and whether `InvalidateZoneCache` was called. -/

/-- Status and invalidation outcome of one handler run. -/
structure HandlerOut where
  status : Nat
  invalidated : Bool
deriving DecidableEq

/-- The three-way outcome of the duplicate-RRSet lookup in `createRRSet`
(`err == nil` / `gorm.ErrRecordNotFound` / other error). -/
inductive LookupOutcome | found | notFound | dbError
deriving DecidableEq

/-- Skeleton of `rest.createZone`. -/
def createZone (bindOK nameNonempty createOK hasDNS : Bool) : HandlerOut :=
  if ¬ bindOK ∨ ¬ nameNonempty then ⟨400, false⟩
  else if ¬ createOK then ⟨400, false⟩
  else ⟨201, hasDNS⟩

/-- Skeleton of `rest.deleteZone`. -/
def deleteZone (found txOK hasDNS : Bool) : HandlerOut :=
  if ¬ found then ⟨404, false⟩
  else if ¬ txOK then ⟨500, false⟩
  else ⟨204, hasDNS⟩

/-- Skeleton of `rest.createRRSet`. -/
def createRRSetH (zoneFound bindOK : Bool) (existing : LookupOutcome)
    (createOK hasDNS : Bool) : HandlerOut :=
  if ¬ zoneFound then ⟨404, false⟩
  else if ¬ bindOK then ⟨400, false⟩
  else match existing with
    | .found => ⟨409, false⟩
    | .dbError => ⟨500, false⟩
    | .notFound => if ¬ createOK then ⟨400, false⟩ else ⟨201, hasDNS⟩

/-- Skeleton of `rest.updateRRSet` (also `patchRRSet`, which calls it). -/
def updateRRSetH (zoneFound setFound bindOK txOK hasDNS : Bool) : HandlerOut :=
  if ¬ zoneFound then ⟨404, false⟩
  else if ¬ setFound then ⟨404, false⟩
  else if ¬ bindOK then ⟨400, false⟩
  else if ¬ txOK then ⟨500, false⟩
  else ⟨200, hasDNS⟩

/-- Skeleton of `rest.deleteRRSet`. -/
def deleteRRSetH (zoneFound delOK hasDNS : Bool) : HandlerOut :=
  if ¬ zoneFound then ⟨404, false⟩
  else if ¬ delOK then ⟨500, false⟩
  else ⟨204, hasDNS⟩

/-- The per-format outcomes of `rest.importZone`. -/
inductive ImportFormat
  | json (decodeOK importOK : Bool)
  | bind (importOK : Bool)
  | other
deriving DecidableEq

/-- Skeleton of `rest.importZone`. -/
def importZone (modeOK zoneFound : Bool) (fmt : ImportFormat) (hasDNS : Bool) : HandlerOut :=
  if ¬ modeOK then ⟨400, false⟩
  else if ¬ zoneFound then ⟨404, false⟩
  else match fmt with
    | .json decodeOK importOK =>
        if ¬ decodeOK then ⟨400, false⟩
        else if ¬ importOK then ⟨500, false⟩
        else ⟨204, hasDNS⟩
    | .bind importOK => if ¬ importOK then ⟨400, false⟩ else ⟨204, hasDNS⟩
    | .other => ⟨400, false⟩

/-- Skeleton of `rest.syncImport`. -/
def syncImport (bindOK txOK hasDNS : Bool) : HandlerOut :=
  if ¬ bindOK then ⟨400, false⟩
  else if ¬ txOK then ⟨500, false⟩
  else ⟨200, hasDNS⟩

/-! ## DNS handler cache behaviour (`dns.serveDNS`) -/

/-- A Response Cache write performed by `serveDNS` (key and TTL in
seconds). -/
inductive CacheOp
  | set (key : GoStr) (ttlSec : Nat)
deriving DecidableEq

/-- The outcomes `serveDNS` branches on for one query: whether the message
has a question, whether the Response Cache hit, what `lookup` returned
(`none` = error, otherwise answer count and TTL), and the forwarder
configuration/outcome (`none` = no forwarder configured, `some none` =
exchange failed, `some (some rcode)` = upstream response). -/
structure DNSQueryFlow where
  hasQuestion : Bool
  cacheHit : Bool
  localAnswers : Option (Nat × Nat)
  forwarder : Option (Option Nat)
deriving DecidableEq

/-- The forward-or-NXDOMAIN tail of `serveDNS`: a successful upstream
response is cached for 300 s only when its rcode is non-zero; a failed or
absent forwarder leads to the local NXDOMAIN, cached for 300 s. -/
def serveDNSForward (f : DNSQueryFlow) (key : GoStr) : List CacheOp :=
  match f.forwarder with
  | some (some rcode) => if rcode ≠ 0 then [CacheOp.set key 300] else []
  | some none => [CacheOp.set key 300]
  | none => [CacheOp.set key 300]

/-- The Response Cache writes performed by one `serveDNS` invocation: a
positive local answer is cached with its own TTL (when positive); any
local failure falls through to the forwarder tail. -/
def serveDNSCacheOps (f : DNSQueryFlow) (key : GoStr) : List CacheOp :=
  if ¬ f.hasQuestion then []
  else if f.cacheHit then []
  else match f.localAnswers with
    | some (nAns, ttl) =>
        if nAns ≠ 0 then (if ttl > 0 then [CacheOp.set key ttl] else [])
        else serveDNSForward f key
    | none => serveDNSForward f key

/-! ## Zone suffix matching (`dns.lookup`) -/

/-- Model of `dns.Fqdn` (miekg/dns): append a dot unless already present. -/
def dnsFqdn (s : GoStr) : GoStr := if hasSuffix s dotS then s else s ++ dotS

/-- The zone-selection step of `dns.lookup`: the first zone (in the given,
longest-first order) whose lowercased FQDN is a plain string suffix of the
query name. -/
def lookupZone (zones : List Zone) (qname : GoStr) : Option Zone :=
  zones.find? (fun z => hasSuffix qname (dnsFqdn (toLowerL z.name)))

/-! ## Lemmas about the byte-string primitives -/

theorem lowerByte_idem (c : Nat) : lowerByte (lowerByte c) = lowerByte c := by
  simp only [lowerByte]
  split
  · rw [if_neg]; omega
  · rfl

theorem isSpaceB_lowerByte (c : Nat) : isSpaceB (lowerByte c) = isSpaceB c := by
  simp only [lowerByte, isSpaceB]
  split
  · rw [decide_eq_decide]; omega
  · rfl

theorem toLowerL_idem (s : GoStr) : toLowerL (toLowerL s) = toLowerL s := by
  induction s with
  | nil => rfl
  | cons c t ih =>
      simp only [toLowerL, List.map_cons] at *
      rw [lowerByte_idem]
      exact congrArg _ ih

theorem toLowerL_append (a b : GoStr) : toLowerL (a ++ b) = toLowerL a ++ toLowerL b := by
  simp [toLowerL]

theorem toLowerL_take (k : Nat) (s : GoStr) :
    toLowerL (s.take k) = (toLowerL s).take k := by
  simp [toLowerL, List.map_take]

theorem dropWhile_self {α : Type} (p : α → Bool) (l : List α) :
    (l.dropWhile p).dropWhile p = l.dropWhile p := by
  induction l with
  | nil => rfl
  | cons c t ih =>
      by_cases h : p c
      · simp [List.dropWhile_cons, h, ih]
      · simp [List.dropWhile_cons, h]

theorem head_not_of_dropWhile {α : Type} {p : α → Bool} {d : α} {t : List α}
    (h : (d :: t).dropWhile p = d :: t) : p d = false := by
  by_cases hp : p d
  · rw [List.dropWhile_cons, if_pos hp] at h
    have hle := (List.dropWhile_sublist (l := t) (p := p)).length_le
    rw [h] at hle
    simp at hle
  · simpa using hp

theorem dropWhile_eq_self_of_prefix {α : Type} {p : α → Bool} {l q : List α}
    (h : l.dropWhile p = l) (hq : q <+: l) : q.dropWhile p = q := by
  cases q with
  | nil => rfl
  | cons c t =>
      obtain ⟨r, hr⟩ := hq
      rw [← hr] at h
      have hc : p c = false := by
        have h' : (c :: (t ++ r)).dropWhile p = c :: (t ++ r) := h
        exact head_not_of_dropWhile h'
      rw [List.dropWhile_cons, if_neg (by simp [hc])]

theorem trimmed_iff {s : GoStr} :
    trimSpace s = s ↔ s.dropWhile isSpaceB = s ∧ s.reverse.dropWhile isSpaceB = s.reverse := by
  constructor
  · intro h
    have hs1 : (s.dropWhile isSpaceB).length = s.length := by
      have h1 := (List.dropWhile_sublist (l := s) (p := isSpaceB)).length_le
      have h2 := (List.dropWhile_sublist (l := (s.dropWhile isSpaceB).reverse)
        (p := isSpaceB)).length_le
      have h3 := congrArg List.length h
      simp only [trimSpace, List.length_reverse] at h3 h2
      omega
    have hd : s.dropWhile isSpaceB = s :=
      (List.dropWhile_suffix isSpaceB).eq_of_length hs1
    refine ⟨hd, ?_⟩
    have h' := h
    simp only [trimSpace, hd] at h'
    have := congrArg List.reverse h'
    rwa [List.reverse_reverse] at this
  · intro ⟨h1, h2⟩
    simp only [trimSpace, h1, h2, List.reverse_reverse]

theorem trimSpace_idem (s : GoStr) : trimSpace (trimSpace s) = trimSpace s := by
  set a := s.dropWhile isSpaceB with ha
  have hb : trimSpace s = (a.reverse.dropWhile isSpaceB).reverse := rfl
  apply trimmed_iff.mpr
  constructor
  · have hpre : (a.reverse.dropWhile isSpaceB).reverse <+: a := by
      have hsuf : a.reverse.dropWhile isSpaceB <:+ a.reverse := List.dropWhile_suffix _
      have := List.reverse_prefix.mpr hsuf
      rwa [List.reverse_reverse] at this
    rw [hb]
    exact dropWhile_eq_self_of_prefix (dropWhile_self _ _) hpre
  · rw [hb, List.reverse_reverse]
    exact dropWhile_self _ _

theorem trimSpace_toLowerL (s : GoStr) :
    trimSpace (toLowerL s) = toLowerL (trimSpace s) := by
  have hpf : (isSpaceB ∘ lowerByte) = isSpaceB := funext isSpaceB_lowerByte
  simp only [trimSpace, toLowerL, List.dropWhile_map, hpf, ← List.map_reverse]

theorem trimSpace_eq_self_of (s : GoStr)
    (h : ∀ c t, s = c :: t → isSpaceB c = false)
    (h' : ∀ c t, s = t ++ [c] → isSpaceB c = false) : trimSpace s = s := by
  apply trimmed_iff.mpr
  constructor
  · cases hs : s with
    | nil => rfl
    | cons c t => rw [List.dropWhile_cons, if_neg (by simp [h c t hs])]
  · cases hr : s.reverse with
    | nil => rfl
    | cons c t =>
        have hs : s = t.reverse ++ [c] := by
          have := congrArg List.reverse hr
          simpa using this
        rw [List.dropWhile_cons, if_neg (by simp [h' c t.reverse hs])]

theorem hasSuffix_iff {s suf : GoStr} : hasSuffix s suf = true ↔ ∃ t, s = t ++ suf := by
  constructor
  · intro h
    simp only [hasSuffix, Bool.and_eq_true, decide_eq_true_eq, beq_iff_eq] at h
    refine ⟨s.take (s.length - suf.length), ?_⟩
    calc s = s.take (s.length - suf.length) ++ s.drop (s.length - suf.length) :=
          (List.take_append_drop _ _).symm
    _ = s.take (s.length - suf.length) ++ suf := by rw [h.2]
  · intro ⟨t, ht⟩
    subst ht
    simp only [hasSuffix, Bool.and_eq_true, decide_eq_true_eq, beq_iff_eq]
    refine ⟨by simp, ?_⟩
    have : (t ++ suf).length - suf.length = t.length := by simp
    rw [this, List.drop_left]

theorem hasSuffix_append_self (t suf : GoStr) : hasSuffix (t ++ suf) suf = true :=
  hasSuffix_iff.mpr ⟨t, rfl⟩

theorem trimSuffix_append (t suf : GoStr) : trimSuffix (t ++ suf) suf = t := by
  simp only [trimSuffix, hasSuffix_append_self t suf, if_true]
  have : (t ++ suf).length - suf.length = t.length := by simp
  rw [this, List.take_left]

theorem trimSuffix_pre (s suf : GoStr) : trimSuffix s suf <+: s := by
  unfold trimSuffix
  split
  · exact List.take_prefix _ _
  · exact List.prefix_refl _

theorem singleton_last_eq {t t' : GoStr} {c c' : Nat}
    (h : t ++ [c] = t' ++ [c']) : c = c' := by
  have hl : t.length = t'.length := by
    have := congrArg List.length h
    simp at this
    omega
  have h2 := (List.append_inj h hl).2
  simpa using h2

theorem lower_of_pre {s q : GoStr} (hs : toLowerL s = s) (hq : q <+: s) :
    toLowerL q = q := by
  obtain ⟨r, hr⟩ := hq
  rw [← hr, toLowerL_append] at hs
  have hl : (toLowerL q).length = q.length := by simp [toLowerL]
  exact (List.append_inj hs hl).1

theorem prefix_head_not {w q : GoStr} (hw : trimSpace w = w) (hq : q <+: w) :
    ∀ c t, q = c :: t → isSpaceB c = false := by
  intro c t h
  have hd := dropWhile_eq_self_of_prefix (trimmed_iff.mp hw).1 hq
  rw [h] at hd
  exact head_not_of_dropWhile hd

theorem head_not_space_append_pre {w q tail : GoStr}
    (hw : trimSpace w = w) (hq : q <+: w)
    (htail : ∀ c t, tail = c :: t → isSpaceB c = false) :
    ∀ c t, q ++ tail = c :: t → isSpaceB c = false := by
  intro c t h
  cases q with
  | nil => exact htail c t (by simpa using h)
  | cons d q' =>
      have hc : c = d := by
        rw [List.cons_append] at h
        exact (List.cons.injEq _ _ _ _ ▸ h.symm).1
      rw [hc]
      exact prefix_head_not hw hq d q' rfl

theorem trimSpace_eq_self_dot (s : GoStr)
    (hhead : ∀ c t, s = c :: t → isSpaceB c = false)
    (hlast : ∃ u, s = u ++ dotS) : trimSpace s = s := by
  apply trimSpace_eq_self_of s hhead
  intro c t h
  obtain ⟨u, hu⟩ := hlast
  rw [hu] at h
  have : (46 : Nat) = c := singleton_last_eq h
  rw [← this]
  decide

theorem trimmed_toLowerL_trimSpace (x : GoStr) :
    trimSpace (toLowerL (trimSpace x)) = toLowerL (trimSpace x) := by
  rw [trimSpace_toLowerL, trimSpace_idem]

/-! ## C4: properties of the normalization functions -/

theorem NormalizeFQDN_trimmed (x : GoStr) :
    trimSpace (NormalizeFQDN x) = NormalizeFQDN x := by
  unfold NormalizeFQDN
  dsimp only
  have htr := trimmed_toLowerL_trimSpace x
  split
  · rename_i h
    apply trimSpace_eq_self_dot
    · exact head_not_space_append_pre htr (List.prefix_refl _)
        (by intro c t h'; cases h'; decide)
    · exact ⟨_, rfl⟩
  · exact htr

theorem NormalizeFQDN_lower (x : GoStr) :
    toLowerL (NormalizeFQDN x) = NormalizeFQDN x := by
  unfold NormalizeFQDN
  dsimp only
  have hlo := toLowerL_idem (trimSpace x)
  split
  · rw [toLowerL_append, hlo]
    rfl
  · exact hlo

theorem NormalizeFQDN_dot (x : GoStr) (h : NormalizeFQDN x ≠ []) :
    hasSuffix (NormalizeFQDN x) dotS = true := by
  unfold NormalizeFQDN at *
  dsimp only at *
  split
  · exact hasSuffix_append_self _ _
  · rename_i hcond
    rw [if_neg hcond] at h
    rcases Decidable.not_and_iff_or_not.mp hcond with h1 | h2
    · exact absurd (Decidable.not_not.mp h1) h
    · exact Decidable.not_not.mp h2

theorem NormalizeFQDN_fixpoint (s : GoStr)
    (h1 : trimSpace s = s) (h2 : toLowerL s = s)
    (h3 : s = [] ∨ hasSuffix s dotS = true) : NormalizeFQDN s = s := by
  unfold NormalizeFQDN
  dsimp only
  rw [h1, h2]
  split
  · rename_i hc
    rcases h3 with h | h
    · exact absurd h hc.1
    · exact absurd h hc.2
  · rfl

theorem NormalizeFQDN_idem (x : GoStr) :
    NormalizeFQDN (NormalizeFQDN x) = NormalizeFQDN x := by
  apply NormalizeFQDN_fixpoint
  · exact NormalizeFQDN_trimmed x
  · exact NormalizeFQDN_lower x
  · by_cases h : NormalizeFQDN x = []
    · exact Or.inl h
    · exact Or.inr (NormalizeFQDN_dot x h)

theorem dotS_head_not_space : ∀ c t, dotS = c :: t → isSpaceB c = false := by
  intro c t h'
  cases h'
  decide

/-- A common shape of normalization outputs: a prefix of a trimmed string
followed by a tail whose head is not whitespace, ending in a dot. -/
theorem piece_props (w q tail : GoStr) (hwT : trimSpace w = w) (hq : q <+: w)
    (hqL : toLowerL q = q) (htailL : toLowerL tail = tail)
    (htailHead : ∀ c t, tail = c :: t → isSpaceB c = false)
    (hdot : ∃ t, q ++ tail = t ++ dotS) :
    toLowerL (q ++ tail) = q ++ tail ∧ trimSpace (q ++ tail) = q ++ tail ∧
      ∃ t, q ++ tail = t ++ dotS :=
  ⟨by rw [toLowerL_append, hqL, htailL],
   trimSpace_eq_self_dot _ (head_not_space_append_pre hwT hq htailHead) hdot, hdot⟩

theorem toLowerL_dotS : toLowerL dotS = dotS := by decide

theorem innerChain_props (w zq n' : GoStr) (hwT : trimSpace w = w)
    (hzT : trimSpace zq = zq) (hzL : toLowerL zq = zq)
    (hnPre : n' <+: w) (hnL : toLowerL n' = n') :
    toLowerL (innerChain n' (trimSuffix zq dotS)) = innerChain n' (trimSuffix zq dotS) ∧
    trimSpace (innerChain n' (trimSuffix zq dotS)) = innerChain n' (trimSuffix zq dotS) ∧
    ∃ t, innerChain n' (trimSuffix zq dotS) = t ++ dotS := by
  unfold innerChain
  have hzoneL := lower_of_pre hzL (trimSuffix_pre zq dotS)
  split
  · rename_i hdot
    obtain ⟨t, ht⟩ := hasSuffix_iff.mp hdot
    exact ⟨hnL, trimSpace_eq_self_dot _ (prefix_head_not hwT hnPre) ⟨t, ht⟩, t, ht⟩
  · split
    · exact piece_props zq (trimSuffix zq dotS) dotS hzT (trimSuffix_pre _ _) hzoneL
        toLowerL_dotS dotS_head_not_space ⟨_, rfl⟩
    · split
      · exact piece_props w n' dotS hwT hnPre hnL toLowerL_dotS dotS_head_not_space ⟨_, rfl⟩
      · have hassoc : n' ++ dotS ++ (trimSuffix zq dotS ++ dotS) =
            n' ++ (dotS ++ (trimSuffix zq dotS ++ dotS)) := by
          simp [List.append_assoc]
        rw [hassoc]
        refine piece_props w n' (dotS ++ (trimSuffix zq dotS ++ dotS)) hwT hnPre hnL ?_ ?_ ?_
        · rw [toLowerL_append, toLowerL_append, hzoneL, toLowerL_dotS]
        · intro c t h
          simp [dotS] at h
          rw [← h.1]
          decide
        · exact ⟨n' ++ dotS ++ trimSuffix zq dotS, by simp [List.append_assoc]⟩

theorem candidate_props (x z : GoStr) :
    toLowerL (normalizeRRSetCandidate x z) = normalizeRRSetCandidate x z ∧
    trimSpace (normalizeRRSetCandidate x z) = normalizeRRSetCandidate x z ∧
    ∃ t, normalizeRRSetCandidate x z = t ++ dotS := by
  unfold normalizeRRSetCandidate
  dsimp only
  have hwT := trimmed_toLowerL_trimSpace x
  have hwL := toLowerL_idem (trimSpace x)
  have hzT := trimmed_toLowerL_trimSpace z
  have hzL := toLowerL_idem (trimSpace z)
  have hzoneL := lower_of_pre hzL (trimSuffix_pre (toLowerL (trimSpace z)) dotS)
  split
  · exact piece_props (toLowerL (trimSpace z)) (trimSuffix (toLowerL (trimSpace z)) dotS)
      dotS hzT (trimSuffix_pre _ _) hzoneL toLowerL_dotS dotS_head_not_space ⟨_, rfl⟩
  · split
    · exact innerChain_props (toLowerL (trimSpace x)) (toLowerL (trimSpace z)) _
        hwT hzT hzL (trimSuffix_pre _ _) (lower_of_pre hwL (trimSuffix_pre _ _))
    · exact innerChain_props (toLowerL (trimSpace x)) (toLowerL (trimSpace z)) _
        hwT hzT hzL (List.prefix_refl _) hwL

theorem candidate_fixpoint {s : GoStr} (z : GoStr)
    (hL : toLowerL s = s) (hT : trimSpace s = s)
    (hd : ∃ t, s = t ++ dotS) : normalizeRRSetCandidate s z = s := by
  unfold normalizeRRSetCandidate
  dsimp only
  rw [hT, hL]
  obtain ⟨t, ht⟩ := hd
  have hne : ¬ (s = [] ∨ s = atS) := by
    rintro (h1 | h2)
    · rw [h1] at ht
      exact absurd ht.symm (by simp [dotS])
    · rw [h2] at ht
      have : (64 : Nat) = 46 := singleton_last_eq (t := []) (by simpa [atS, dotS] using ht)
      omega
  rw [if_neg hne]
  have hAt : hasSuffix s dotAtS = false := by
    by_contra hx
    obtain ⟨u, hu⟩ := hasSuffix_iff.mp (Bool.not_eq_false _ ▸ hx)
    have h64 : s = (u ++ [46]) ++ [64] := by simpa [dotAtS] using hu
    have : (46 : Nat) = 64 := singleton_last_eq (ht ▸ h64 ▸ rfl : t ++ [46] = (u ++ [46]) ++ [64])
    omega
  have hDot : hasSuffix s dotS = true := ht ▸ hasSuffix_append_self t dotS
  simp only [hAt, Bool.false_eq_true, if_false, hDot, if_true]

theorem NormalizeRRSetName_some {x z r : GoStr} (h : NormalizeRRSetName x z = some r) :
    r = normalizeRRSetCandidate x z ∧ belongsToZone r z = true := by
  unfold NormalizeRRSetName at h
  dsimp only at h
  split at h
  · rename_i hb
    cases h
    exact ⟨rfl, hb⟩
  · cases h

theorem NormalizeRRSetName_idem {x z r : GoStr} (h : NormalizeRRSetName x z = some r) :
    NormalizeRRSetName r z = some r := by
  obtain ⟨hr, hb⟩ := NormalizeRRSetName_some h
  obtain ⟨hL, hT, hd⟩ := candidate_props x z
  rw [← hr] at hL hT hd
  unfold NormalizeRRSetName
  dsimp only
  rw [candidate_fixpoint z hL hT hd, if_pos hb]

theorem NormalizeRRSetName_lower_dot {x z r : GoStr}
    (h : NormalizeRRSetName x z = some r) :
    toLowerL r = r ∧ hasSuffix r dotS = true := by
  obtain ⟨hr, _⟩ := NormalizeRRSetName_some h
  obtain ⟨hL, _, t, hd⟩ := candidate_props x z
  rw [← hr] at hL hd
  exact ⟨hL, hd ▸ hasSuffix_append_self t dotS⟩

/-- The body of `fqdn` after its lets are resolved, abstracted over the
stripped name `m` and the stripped zone `z'`. -/
theorem fqdn_shape_props (m z' : GoStr) (hmL : toLowerL m = m) (hz'L : toLowerL z' = z') :
    toLowerL (if m = [] ∨ m = atS then z' ++ dotS else m ++ dotS ++ z' ++ dotS) =
      (if m = [] ∨ m = atS then z' ++ dotS else m ++ dotS ++ z' ++ dotS) ∧
    (if m = [] ∨ m = atS then z' ++ dotS else m ++ dotS ++ z' ++ dotS) ≠ [] ∧
    hasSuffix (if m = [] ∨ m = atS then z' ++ dotS else m ++ dotS ++ z' ++ dotS) dotS
      = true := by
  split
  · exact ⟨by rw [toLowerL_append, hz'L, toLowerL_dotS], by simp [dotS],
      hasSuffix_append_self _ _⟩
  · refine ⟨?_, by simp [dotS], hasSuffix_append_self _ _⟩
    rw [toLowerL_append, toLowerL_append, toLowerL_append, hmL, hz'L, toLowerL_dotS]

theorem fqdn_lower (x z : GoStr) : toLowerL (fqdn x z) = fqdn x z := by
  unfold fqdn
  dsimp only
  have hxL := toLowerL_idem x
  have hzL := lower_of_pre (toLowerL_idem z) (trimSuffix_pre (toLowerL z) dotS)
  split
  · exact (fqdn_shape_props _ _
      (lower_of_pre hxL ((trimSuffix_pre _ _).trans (trimSuffix_pre _ _))) hzL).1
  · exact (fqdn_shape_props _ _ (lower_of_pre hxL (trimSuffix_pre _ _)) hzL).1

theorem fqdn_dot (x z : GoStr) :
    fqdn x z ≠ [] ∧ hasSuffix (fqdn x z) dotS = true := by
  unfold fqdn
  dsimp only
  have hxL := toLowerL_idem x
  have hzL := lower_of_pre (toLowerL_idem z) (trimSuffix_pre (toLowerL z) dotS)
  split
  · exact (fqdn_shape_props _ _
      (lower_of_pre hxL ((trimSuffix_pre _ _).trans (trimSuffix_pre _ _))) hzL).2
  · exact (fqdn_shape_props _ _ (lower_of_pre hxL (trimSuffix_pre _ _)) hzL).2

/-- C4 (counterexample): the claim asserts that the REST handlers' `fqdn`
(with a fixed zone) is idempotent.  It is not: `fqdn("www","example.com")`
is `"www.example.com."`, and applying `fqdn` again to that output appends
the zone a second time, giving `"www.example.com.example.com."`. -/
theorem C4_counterexample :
    fqdn (fqdn (gostr "www") (gostr "example.com")) (gostr "example.com") ≠
      fqdn (gostr "www") (gostr "example.com") := by decide

/-- C4 (amended): `NormalizeFQDN` and `NormalizeRRSetName` (with a fixed
zone) are idempotent, and their output is lowercase and ends with `'.'`
whenever it is non-empty; the REST handlers' `fqdn` produces lowercase,
non-empty, dot-terminated output but is not idempotent. -/
theorem C4_normalization_properties :
    (∀ x, NormalizeFQDN (NormalizeFQDN x) = NormalizeFQDN x ∧
      toLowerL (NormalizeFQDN x) = NormalizeFQDN x ∧
      (NormalizeFQDN x ≠ [] → hasSuffix (NormalizeFQDN x) dotS = true)) ∧
    (∀ x z r, NormalizeRRSetName x z = some r →
      NormalizeRRSetName r z = some r ∧ toLowerL r = r ∧ hasSuffix r dotS = true) ∧
    (∀ x z, toLowerL (fqdn x z) = fqdn x z ∧ fqdn x z ≠ [] ∧
      hasSuffix (fqdn x z) dotS = true) := by
  refine ⟨fun x => ⟨NormalizeFQDN_idem x, NormalizeFQDN_lower x, NormalizeFQDN_dot x⟩,
    fun x z r h => ⟨NormalizeRRSetName_idem h, (NormalizeRRSetName_lower_dot h).1,
      (NormalizeRRSetName_lower_dot h).2⟩,
    fun x z => ⟨fqdn_lower x z, (fqdn_dot x z).1, (fqdn_dot x z).2⟩⟩

theorem geoBuckets_eq (ip : Addr) (g : Info) (recs : List RData) :
    geoBuckets ip g recs =
      (recs.filter (fun r => assignRule ip g r == some GeoRule.subnet),
       recs.filter (fun r => assignRule ip g r == some GeoRule.asn),
       recs.filter (fun r => assignRule ip g r == some GeoRule.country),
       recs.filter (fun r => assignRule ip g r == some GeoRule.continent),
       recs.filter (fun r => assignRule ip g r == some GeoRule.generic)) := by
  induction recs with
  | nil => rfl
  | cons r rest ih =>
      simp only [geoBuckets, ih, List.filter_cons]
      by_cases h1 : matchSubnet ip r
      · simp [assignRule, h1]
      · by_cases h2 : matchASN g r
        · simp [assignRule, h1, h2]
        · by_cases h3 : matchCountry g r
          · simp [assignRule, h1, h2, h3]
          · by_cases h4 : matchContinent g r
            · simp [assignRule, h1, h2, h3, h4]
            · by_cases h5 : isGeneric r
              · simp [assignRule, h1, h2, h3, h4, h5]
              · simp [assignRule, h1, h2, h3, h4, h5]

/-- C1: the Geo Selector returns the empty list with rationale `none` on an
empty candidate list; on an invalid client IP the sublist of candidates
with all four Geo attributes absent (or the full list if that sublist is
empty); otherwise, with each candidate assigned to the first rule it
matches in the order subnet, ASN, country, continent, all-absent, the
first non-empty bucket in priority order (original order preserved inside
the bucket), falling back to the full list when all five are empty. -/
theorem C1_selectGeoRecords_correct (recs : List RData) (ip : Addr) (g : Info) :
    selectGeoRecords recs ip g = geoSelectSpec recs ip g := by
  unfold selectGeoRecords geoSelectSpec
  dsimp only
  by_cases h0 : recs = []
  · simp [h0]
  · rw [if_neg h0, if_neg h0]
    by_cases hv : ¬ ip.valid
    · rw [if_pos hv, if_pos hv]
    · rw [if_neg hv, if_neg hv, geoBuckets_eq]

/-- C4 witness: the amended theorem applied at concrete inputs, with its
hypotheses discharged by evaluation. -/
theorem C4_witness :
    (NormalizeFQDN (gostr "WWW ") ≠ [] ∧
      hasSuffix (NormalizeFQDN (gostr "WWW ")) dotS = true) ∧
    NormalizeRRSetName (gostr "www.example.com.") (gostr "example.com") =
      some (gostr "www.example.com.") :=
  ⟨⟨by decide, (C4_normalization_properties.1 (gostr "WWW ")).2.2 (by decide)⟩,
    (C4_normalization_properties.2.1 (gostr "www") (gostr "example.com")
      (gostr "www.example.com.") (by decide)).1⟩

/-! ## C10: zone suffix matching -/

/-- C10: zone matching in the DNS lookup is a plain string-suffix
comparison without a label-boundary check: the question name
`notexample.com.` is neither the stored zone's FQDN `example.com.` nor a
proper subdomain of it, yet its text ends with the zone FQDN, so the
lookup selects that zone and resolves the query inside it. -/
theorem C10_lookup_suffix_no_label_boundary :
    lookupZone [⟨1, gostr "example.com."⟩] (gostr "notexample.com.") =
      some ⟨1, gostr "example.com."⟩ ∧
    gostr "notexample.com." ≠ dnsFqdn (toLowerL (gostr "example.com.")) ∧
    hasSuffix (gostr "notexample.com.")
      (dotS ++ dnsFqdn (toLowerL (gostr "example.com."))) = false := by
  refine ⟨by decide, by decide, by decide⟩

/-! ## C6: cache_size zero -/

/-- C6 (counterexample): setting `performance.cache_size` to zero does not
disable response caching: the default filling of `Load` replaces the zero
with 1024, and a cache of capacity 1024 stores and serves a response. -/
theorem C6_counterexample :
    (applyDefaults { listen := [], restListen := [], tlsCertFile := [], tlsKeyFile := [],
                     tlsReloadSec := 0, autoSOAOnMissing := false, soa := ⟨[], [], false⟩,
                     performance := ⟨0, 5, 5⟩, admin := ⟨false⟩,
                     replication := ⟨[], [], 0⟩ }).performance.cacheSize = 1024 ∧
    cacheGet (cacheSet (cacheNew 1024) (gostr "www.example.com.|1|") 300)
      (gostr "www.example.com.|1|") = some 300 := by decide

/-- C6 (amended): `Load` replaces a zero `performance.cache_size` with the
default 1024 before validation, so a configuration loaded from a file with
`cache_size: 0` has caching enabled with capacity 1024; only a Response
Cache constructed with size 0 directly (which `Load` never produces)
refuses to store. -/
theorem C6_cache_size_zero_defaulted (c : Config) (h : c.performance.cacheSize = 0) :
    (applyDefaults c).performance.cacheSize = 1024 ∧
    (∀ key ttl, cacheSet (cacheNew 0) key ttl = cacheNew 0) := by
  constructor
  · simp [applyDefaults, h]
  · intro key ttl
    simp [cacheSet, cacheNew]

/-- C6 witness: the amended theorem applied to a concrete configuration. -/
theorem C6_witness :
    (applyDefaults { listen := [], restListen := [], tlsCertFile := [], tlsKeyFile := [],
                     tlsReloadSec := 0, autoSOAOnMissing := false, soa := ⟨[], [], false⟩,
                     performance := ⟨0, 2, 2⟩, admin := ⟨true⟩,
                     replication := ⟨[], [], 5⟩ }).performance.cacheSize = 1024 :=
  (C6_cache_size_zero_defaulted _ (by decide)).1

/-! ## C5: cache invalidation after successful mutations -/

/-- C5: every mutating control-plane handler (zone create/delete, RRSet
create/update/delete, zone import, sync import) calls
`InvalidateZoneCache` on every path that completes successfully (2xx
status), given that a DNS server is wired (`s.dnsServer != nil`). -/
theorem C5_invalidate_on_success :
    (∀ b n c, (createZone b n c true).status < 300 →
      (createZone b n c true).invalidated = true) ∧
    (∀ f t, (deleteZone f t true).status < 300 →
      (deleteZone f t true).invalidated = true) ∧
    (∀ z b e c, (createRRSetH z b e c true).status < 300 →
      (createRRSetH z b e c true).invalidated = true) ∧
    (∀ z s b t, (updateRRSetH z s b t true).status < 300 →
      (updateRRSetH z s b t true).invalidated = true) ∧
    (∀ z d, (deleteRRSetH z d true).status < 300 →
      (deleteRRSetH z d true).invalidated = true) ∧
    (∀ m z fmt, (importZone m z fmt true).status < 300 →
      (importZone m z fmt true).invalidated = true) ∧
    (∀ b t, (syncImport b t true).status < 300 →
      (syncImport b t true).invalidated = true) := by
  refine ⟨by decide, by decide, ?_, by decide, by decide, ?_, by decide⟩
  · intro z b e c
    cases e <;> (revert z b c; decide)
  · intro m z fmt
    cases fmt with
    | json d i => revert m z d i; decide
    | bind i => revert m z i; decide
    | other => revert m z; decide

/-- C5 witness: concrete successful runs of two handlers, via the
theorem. -/
theorem C5_witness :
    (createZone true true true true).status < 300 ∧
    (createZone true true true true).invalidated = true ∧
    (syncImport true true true).invalidated = true :=
  ⟨by decide, C5_invalidate_on_success.1 true true true (by decide),
    C5_invalidate_on_success.2.2.2.2.2.2 true true (by decide)⟩

/-! ## C7: negative caching -/

/-- C7: when a query misses the Response Cache and local resolution yields
no answer, a forwarded response with non-zero rcode is cached under the
query's key for exactly 300 s (5 minutes), the local NXDOMAIN produced
when no forwarder is configured is cached for 300 s, and a forwarded
response with rcode zero is returned without being cached. -/
theorem C7_negative_caching (f : DNSQueryFlow) (key : GoStr)
    (hq : f.hasQuestion = true) (hc : f.cacheHit = false)
    (hmiss : f.localAnswers = none ∨ ∃ ttl, f.localAnswers = some (0, ttl)) :
    (∀ rcode, f.forwarder = some (some rcode) →
      serveDNSCacheOps f key = if rcode ≠ 0 then [CacheOp.set key 300] else []) ∧
    (f.forwarder = none → serveDNSCacheOps f key = [CacheOp.set key 300]) := by
  have hbase : serveDNSCacheOps f key = serveDNSForward f key := by
    unfold serveDNSCacheOps
    rcases hmiss with h | ⟨ttl, h⟩ <;> simp [hq, hc, h]
  constructor
  · intro rcode hr
    rw [hbase]
    unfold serveDNSForward
    rw [hr]
  · intro hr
    rw [hbase]
    unfold serveDNSForward
    rw [hr]

/-- C7 witness: the theorem applied to a concrete forwarded NXDOMAIN and a
concrete local NXDOMAIN. -/
theorem C7_witness :
    serveDNSCacheOps ⟨true, false, none, some (some 3)⟩ (gostr "nx.test.|1|") =
      [CacheOp.set (gostr "nx.test.|1|") 300] ∧
    serveDNSCacheOps ⟨true, false, none, none⟩ (gostr "nx.test.|1|") =
      [CacheOp.set (gostr "nx.test.|1|") 300] := by
  constructor
  · have h := (C7_negative_caching ⟨true, false, none, some (some 3)⟩
      (gostr "nx.test.|1|") rfl rfl (Or.inl rfl)).1 3 rfl
    simpa using h
  · exact (C7_negative_caching ⟨true, false, none, none⟩
      (gostr "nx.test.|1|") rfl rfl (Or.inl rfl)).2 rfl

/-! ## C9: re-applying a template -/

theorem totalRecords_cons (s : RRSet) (tbl : List RRSet) :
    totalRecords (s :: tbl) = s.records.length + totalRecords tbl := by
  simp [totalRecords]

theorem appendRecord_map_key (zoneID : Nat) (nm ty : GoStr) (rec : RData)
    (tbl : List RRSet) :
    (appendRecordToRRSet zoneID nm ty rec tbl).map rrsetKey = tbl.map rrsetKey := by
  induction tbl with
  | nil => rfl
  | cons s rest ih =>
      simp only [appendRecordToRRSet]
      split
      · simp [rrsetKey]
      · simp [ih]

theorem appendRecord_total (zoneID : Nat) (nm ty : GoStr) (rec : RData)
    (tbl : List RRSet) (h : (findRRSet tbl zoneID nm ty).isSome = true) :
    totalRecords (appendRecordToRRSet zoneID nm ty rec tbl) = totalRecords tbl + 1 := by
  induction tbl with
  | nil => simp [findRRSet] at h
  | cons s rest ih =>
      simp only [appendRecordToRRSet]
      split
      · rename_i hcond
        rw [totalRecords_cons, totalRecords_cons]
        simp
        omega
      · rename_i hcond
        have h' : (findRRSet rest zoneID nm ty).isSome = true := by
          unfold findRRSet at h ⊢
          rwa [List.find?_cons_of_neg] at h
          simp [hcond]
        rw [totalRecords_cons, totalRecords_cons, ih h']
        omega

theorem findRRSet_isSome_iff (tbl : List RRSet) (z : Nat) (nm ty : GoStr) :
    (findRRSet tbl z nm ty).isSome = true ↔
      ∃ k ∈ tbl.map rrsetKey, k.1 = z ∧ k.2.1 = nm ∧ k.2.2.1 = ty := by
  unfold findRRSet
  rw [List.find?_isSome]
  constructor
  · rintro ⟨s, hs, hp⟩
    simp only [decide_eq_true_eq] at hp
    exact ⟨rrsetKey s, List.mem_map_of_mem _ hs, hp.1, hp.2.1, hp.2.2⟩
  · rintro ⟨k, hk, h1, h2, h3⟩
    obtain ⟨s, hs, rfl⟩ := List.mem_map.mp hk
    refine ⟨s, hs, ?_⟩
    simp only [rrsetKey] at h1 h2 h3
    simp [h1, h2, h3]

theorem findRRSet_isSome_congr {tbl tbl' : List RRSet}
    (h : tbl.map rrsetKey = tbl'.map rrsetKey) (z : Nat) (nm ty : GoStr) :
    (findRRSet tbl z nm ty).isSome = (findRRSet tbl' z nm ty).isSome := by
  have h1 := findRRSet_isSome_iff tbl z nm ty
  have h2 := findRRSet_isSome_iff tbl' z nm ty
  rw [h] at h1
  cases hx : (findRRSet tbl z nm ty).isSome
  · cases hy : (findRRSet tbl' z nm ty).isSome
    · rfl
    · exact absurd (h1.mpr (h2.mp hy)) (by simp [hx])
  · exact (h2.mpr (h1.mp hx)).symm

theorem applyTemplateStep_found (zoneID : Nat) (domain : GoStr) (tbl : List RRSet)
    (tr : TemplateRecord)
    (h : (findRRSet tbl zoneID (templateRecName domain tr) tr.ty).isSome = true) :
    (applyTemplateStep zoneID domain tbl tr).map rrsetKey = tbl.map rrsetKey ∧
    totalRecords (applyTemplateStep zoneID domain tbl tr) = totalRecords tbl + 1 := by
  unfold applyTemplateStep
  dsimp only
  rw [h]
  simp only [if_true]
  exact ⟨appendRecord_map_key _ _ _ _ _, appendRecord_total _ _ _ _ _ h⟩

theorem applyTemplate_aux (zoneID : Nat) (domain : GoStr) :
    ∀ (records : List TemplateRecord) (tbl : List RRSet),
      (∀ tr ∈ records,
        (findRRSet tbl zoneID (templateRecName domain tr) tr.ty).isSome = true) →
      (records.foldl (applyTemplateStep zoneID domain) tbl).map rrsetKey =
        tbl.map rrsetKey ∧
      totalRecords (records.foldl (applyTemplateStep zoneID domain) tbl) =
        totalRecords tbl + records.length := by
  intro records
  induction records with
  | nil => exact fun tbl _ => ⟨rfl, by simp⟩
  | cons tr rest ih =>
      intro tbl h
      simp only [List.foldl_cons]
      have hhead := h tr (List.mem_cons_self _ _)
      obtain ⟨hk, ht⟩ := applyTemplateStep_found zoneID domain tbl tr hhead
      have hrest : ∀ tr' ∈ rest,
          (findRRSet (applyTemplateStep zoneID domain tbl tr) zoneID
            (templateRecName domain tr') tr'.ty).isSome = true := by
        intro tr' h'
        rw [findRRSet_isSome_congr hk]
        exact h tr' (List.mem_cons_of_mem _ h')
      obtain ⟨ihk, iht⟩ := ih (applyTemplateStep zoneID domain tbl tr) hrest
      refine ⟨by rw [ihk, hk], ?_⟩
      rw [iht, ht]
      simp [Nat.add_assoc, Nat.add_comm 1 rest.length]

/-- C9 (counterexample): applying a template twice does produce new
records: the second application finds the `(zone, name, type)` RRSet but
still unconditionally creates a record row, so the record count grows by
one per template record instead of staying unchanged. -/
theorem C9_counterexample :
    totalRecords (applyTemplate
      (applyTemplate [] 1 (gostr "example.com.")
        [{ name := gostr "www", ty := gostr "A", ttl := 300, data := gostr "1.2.3.4" }])
      1 (gostr "example.com.")
      [{ name := gostr "www", ty := gostr "A", ttl := 300, data := gostr "1.2.3.4" }]) =
    totalRecords (applyTemplate [] 1 (gostr "example.com.")
      [{ name := gostr "www", ty := gostr "A", ttl := 300, data := gostr "1.2.3.4" }])
      + 1 := by decide

/-- C9 (amended): when every template record's computed `(name, type)`
RRSet already exists in the zone — as after a first application — a second
application adds no RRSet row and changes no RRSet's zone, name, type or
TTL, but it appends exactly one duplicate record row per template record
(rather than adding no record rows, as the claim states). -/
theorem C9_second_application (tbl : List RRSet) (zoneID : Nat) (zoneName : GoStr)
    (records : List TemplateRecord)
    (h : ∀ tr ∈ records, (findRRSet tbl zoneID
      (templateRecName (trimSuffix zoneName dotS) tr) tr.ty).isSome = true) :
    (applyTemplate tbl zoneID zoneName records).map rrsetKey = tbl.map rrsetKey ∧
    totalRecords (applyTemplate tbl zoneID zoneName records) =
      totalRecords tbl + records.length := by
  unfold applyTemplate
  dsimp only
  exact applyTemplate_aux zoneID (trimSuffix zoneName dotS) records tbl h

/-- C9 witness: the amended theorem applied to the state left by a first
concrete application. -/
theorem C9_witness :
    totalRecords (applyTemplate
      (applyTemplate [] 1 (gostr "example.com.")
        [{ name := gostr "mail", ty := gostr "A", ttl := 60, data := gostr "192.0.2.9" }])
      1 (gostr "example.com.")
      [{ name := gostr "mail", ty := gostr "A", ttl := 60, data := gostr "192.0.2.9" }]) =
    totalRecords (applyTemplate [] 1 (gostr "example.com.")
      [{ name := gostr "mail", ty := gostr "A", ttl := 60, data := gostr "192.0.2.9" }])
      + 1 := by
  have h := (C9_second_application
    (applyTemplate [] 1 (gostr "example.com.")
      [{ name := gostr "mail", ty := gostr "A", ttl := 60, data := gostr "192.0.2.9" }])
    1 (gostr "example.com.")
    [{ name := gostr "mail", ty := gostr "A", ttl := 60, data := gostr "192.0.2.9" }]
    (by decide)).2
  simpa using h

/-! ## C8: import aborts on names outside the zone -/

theorem NormalizeRRSetName_none_of_not_belongs {x z : GoStr}
    (h : belongsToZone (normalizeRRSetCandidate x z) z = false) :
    NormalizeRRSetName x z = none := by
  unfold NormalizeRRSetName
  dsimp only
  simp [h]

theorem importLoop_none (dstID : Nat) (dstName : GoStr) (dTTL : Nat) :
    ∀ (src : List RRSet) (tbl : List RRSet),
      (∃ rs ∈ src, NormalizeRRSetName rs.name dstName = none) →
      importLoop dstID dstName dTTL tbl src = none := by
  intro src
  induction src with
  | nil =>
      rintro tbl ⟨rs, h, _⟩
      simp at h
  | cons rs rest ih =>
      rintro tbl ⟨rs', hmem, hnone⟩
      rcases List.mem_cons.mp hmem with heq | hmem'
      · subst heq
        simp only [importLoop, hnone]
      · simp only [importLoop]
        cases hx : NormalizeRRSetName rs.name dstName with
        | none => rfl
        | some nm =>
            dsimp only
            cases hfind : findRRSet tbl dstID nm (toUpperL rs.ty) with
            | some s =>
                simp only [hfind]
                exact ih _ ⟨rs', hmem', hnone⟩
            | none =>
                simp only [hfind]
                exact ih _ ⟨rs', hmem', hnone⟩

/-- C8: if any incoming RRSet's name, normalized against the zone name,
is neither the zone apex nor a proper subdomain of the zone (the
validation of `NormalizeRRSetName` fails), then `ImportJSON` returns the
error from inside its transaction, which is rolled back: no RRSet from
the payload is committed, in either mode. -/
theorem C8_import_rejects_foreign_names (tbl : List RRSet) (dst : Zone)
    (src : List RRSet) (mode : GoStr) (defaultTTL : Nat)
    (h : ∃ rs ∈ src,
      belongsToZone (normalizeRRSetCandidate rs.name dst.name) dst.name = false) :
    ImportJSON tbl dst src mode defaultTTL = none := by
  obtain ⟨rs, hmem, hb⟩ := h
  unfold ImportJSON
  dsimp only
  exact importLoop_none dst.id dst.name defaultTTL src _
    ⟨rs, hmem, NormalizeRRSetName_none_of_not_belongs hb⟩

/-- C8 witness: a concrete import whose payload names a foreign zone is
rejected, via the theorem. -/
theorem C8_witness :
    ImportJSON
      [{ zoneID := 1, name := gostr "example.com.", ty := gostr "MX", ttl := 300,
         records := [] }]
      ⟨1, gostr "example.com."⟩
      [{ zoneID := 0, name := gostr "other.net.", ty := gostr "A", ttl := 60,
         records := [] }]
      (gostr "upsert") 0 = none :=
  C8_import_rejects_foreign_names _ _ _ _ _
    ⟨{ zoneID := 0, name := gostr "other.net.", ty := gostr "A", ttl := 60,
       records := [] }, by decide, by decide⟩

/-! ## Decimal parse/format round-trip -/

theorem digitsValAux_append (a b : GoStr) (acc : Nat) :
    digitsValAux (a ++ b) acc =
      match digitsValAux a acc with
      | some v => digitsValAux b v
      | none => none := by
  induction a generalizing acc with
  | nil => rfl
  | cons c rest ih =>
      simp only [List.cons_append, digitsValAux]
      split
      · exact ih _
      · rfl

theorem natDigitsAux_spec : ∀ (fuel n : Nat), n < 10 ^ fuel →
    ∀ acc, digitsValAux (natDigitsAux fuel n) acc =
      some (acc * 10 ^ (natDigitsAux fuel n).length + n) := by
  intro fuel
  induction fuel with
  | zero =>
      intro n h acc
      have h0 : n = 0 := by simpa using h
      subst h0
      simp [natDigitsAux, digitsValAux]
  | succ f ih =>
      intro n h acc
      by_cases h0 : n = 0
      · subst h0
        simp [natDigitsAux, digitsValAux]
      · simp only [natDigitsAux, if_neg h0]
        rw [digitsValAux_append]
        have hdiv : n / 10 < 10 ^ f := by
          rw [Nat.div_lt_iff_lt_mul (by norm_num)]
          calc n < 10 ^ (f + 1) := h
          _ = 10 ^ f * 10 := by rw [pow_succ]
        rw [ih (n / 10) hdiv acc]
        have hm : n % 10 < 10 := Nat.mod_lt _ (by norm_num)
        simp only [digitsValAux]
        rw [if_pos (by omega)]
        congr 1
        rw [List.length_append, List.length_singleton, pow_succ]
        have hd : (48 + n % 10 - 48) = n % 10 := by omega
        rw [hd]
        have hgen : ∀ A : Nat, (acc * A + n / 10) * 10 + n % 10 = acc * (A * 10) + n := by
          intro A
          have hdm : 10 * (n / 10) + n % 10 = n := Nat.div_add_mod n 10
          have hx : (acc * A + n / 10) * 10 = acc * (A * 10) + 10 * (n / 10) := by ring
          omega
        exact hgen _

theorem natDigitsAux_all_digits : ∀ (fuel n : Nat), ∀ c ∈ natDigitsAux fuel n,
    48 ≤ c ∧ c ≤ 57 := by
  intro fuel
  induction fuel with
  | zero => intro n c hc; simp [natDigitsAux] at hc
  | succ f ih =>
      intro n c hc
      by_cases h0 : n = 0
      · subst h0; simp [natDigitsAux] at hc
      · simp only [natDigitsAux, if_neg h0, List.mem_append, List.mem_singleton] at hc
        rcases hc with hc | hc
        · exact ih _ c hc
        · have : n % 10 < 10 := Nat.mod_lt _ (by norm_num)
          omega

theorem formatNat_all_digits (n : Nat) : ∀ c ∈ formatNat n, 48 ≤ c ∧ c ≤ 57 := by
  intro c hc
  unfold formatNat at hc
  split at hc
  · simp at hc
    omega
  · exact natDigitsAux_all_digits _ _ c hc

theorem formatNat_ne_nil (n : Nat) : formatNat n ≠ [] := by
  unfold formatNat
  split
  · simp
  · rename_i h0
    simp only [natDigitsAux, if_neg h0]
    simp

theorem parse_formatNat (n : Nat) (h : n ≤ 2 ^ 63 - 1) :
    parseInt64 (formatNat n) = some (n : Int) := by
  have hval : digitsValAux (formatNat n) 0 = some n := by
    by_cases h0 : n = 0
    · subst h0; decide
    · have hlt : n < 10 ^ (n + 1) :=
        lt_of_lt_of_le (Nat.lt_pow_self (by norm_num) n)
          (Nat.pow_le_pow_right (by norm_num) (by omega))
      have := natDigitsAux_spec (n + 1) n hlt 0
      simpa [formatNat, h0] using this
  obtain ⟨c, rest, hcr⟩ : ∃ c rest, formatNat n = c :: rest := by
    cases hfn : formatNat n with
    | nil => exact absurd hfn (formatNat_ne_nil n)
    | cons c rest => exact ⟨c, rest, rfl⟩
  have hdig : 48 ≤ c ∧ c ≤ 57 := formatNat_all_digits n c (hcr ▸ List.mem_cons_self c rest)
  rw [hcr] at hval ⊢
  simp only [parseInt64]
  rw [if_neg (by omega), if_neg (by omega), hval]
  show (if n ≤ 2 ^ 63 - 1 then some (n : Int) else none) = some (n : Int)
  rw [if_pos h]

theorem parseInt64_lower_bound {s : GoStr} {n : Int} (h : parseInt64 s = some n) :
    -(2 ^ 63) ≤ n := by
  unfold parseInt64 at h
  split at h
  · cases h
  · split at h
    · split at h
      · cases h
      · split at h
        · split at h
          · rename_i hle
            cases h
            omega
          · cases h
        · cases h
    · split at h
      · split at h
        · cases h
        · split at h
          · split at h
            · rename_i m _ hle
              cases h
              omega
            · cases h
          · cases h
      · split at h
        · split at h
          · rename_i hle
            cases h
            omega
          · cases h
        · cases h

theorem wrap64_eq {x : Int} (h1 : -(2 ^ 63) ≤ x) (h2 : x < 2 ^ 63) : wrap64 x = x := by
  unfold wrap64
  rw [Int.emod_eq_of_lt (by omega) (by omega)]
  omega

/-! ## `strings.Fields` and `strings.Join` round-trip -/

theorem fieldsAux_props : ∀ (l acc : GoStr), (∀ c ∈ acc, isSpaceB c = false) →
    ∀ p ∈ fieldsAux l acc, p ≠ [] ∧ ∀ c ∈ p, isSpaceB c = false := by
  intro l
  induction l with
  | nil =>
      intro acc hacc p hp
      simp only [fieldsAux] at hp
      split at hp
      · simp at hp
      · rename_i hne
        simp only [List.mem_singleton] at hp
        subst hp
        exact ⟨by simpa using hne, fun c hc => hacc c (List.mem_reverse.mp hc)⟩
  | cons c rest ih =>
      intro acc hacc p hp
      simp only [fieldsAux] at hp
      split at hp
      · split at hp
        · exact ih [] (by simp) p hp
        · rename_i hne
          rcases List.mem_cons.mp hp with heq | hp'
          · subst heq
            exact ⟨by simpa using hne, fun c hc => hacc c (List.mem_reverse.mp hc)⟩
          · exact ih [] (by simp) p hp'
      · rename_i hsp
        refine ih (c :: acc) ?_ p hp
        intro d hd
        rcases List.mem_cons.mp hd with heq | hd'
        · subst heq; simpa using hsp
        · exact hacc d hd'

theorem fields_props (s : GoStr) : ∀ p ∈ fields s, p ≠ [] ∧ ∀ c ∈ p, isSpaceB c = false :=
  fieldsAux_props s [] (by simp)

theorem fieldsAux_skip_field : ∀ (p t acc : GoStr), (∀ c ∈ p, isSpaceB c = false) →
    fieldsAux (p ++ t) acc = fieldsAux t (p.reverse ++ acc) := by
  intro p
  induction p with
  | nil => intro t acc _; simp
  | cons c p' ih =>
      intro t acc hp
      have hc : isSpaceB c = false := hp c (List.mem_cons_self _ _)
      simp only [List.cons_append, fieldsAux, hc, Bool.false_eq_true, if_false,
        List.append_eq]
      rw [ih t (c :: acc) (fun d hd => hp d (List.mem_cons_of_mem _ hd))]
      simp [List.append_assoc]

theorem fields_joinSpace : ∀ (parts : List GoStr),
    (∀ p ∈ parts, p ≠ [] ∧ ∀ c ∈ p, isSpaceB c = false) →
    fields (joinSpace parts) = parts := by
  intro parts
  induction parts with
  | nil => intro _; rfl
  | cons p rest ih =>
      intro h
      have hp := h p (List.mem_cons_self _ _)
      cases rest with
      | nil =>
          show fields (joinSpace [p]) = [p]
          have : joinSpace [p] = p ++ [] := by simp [joinSpace]
          rw [this]
          unfold fields
          rw [fieldsAux_skip_field p [] [] hp.2]
          simp only [fieldsAux]
          rw [if_neg (by simpa using hp.1)]
          simp
      | cons q rest' =>
          show fields (joinSpace (p :: q :: rest')) = p :: q :: rest'
          have hj : joinSpace (p :: q :: rest') = p ++ (32 :: joinSpace (q :: rest')) := by
            simp [joinSpace]
          rw [hj]
          unfold fields
          rw [fieldsAux_skip_field p _ [] hp.2]
          simp only [fieldsAux]
          rw [if_pos (by decide), if_neg (by simpa using hp.1)]
          have := ih (fun p' hp' => h p' (List.mem_cons_of_mem _ hp'))
          unfold fields at this
          rw [this]
          simp

/-! ## Small list helpers for the SOA table -/

theorem mem_set_cases {α : Type} : ∀ (l : List α) (i : Nat) (v x : α),
    x ∈ l.set i v → x ∈ l ∨ x = v := by
  intro l
  induction l with
  | nil => intro i v x hx; simp at hx
  | cons a rest ih =>
      intro i v x hx
      cases i with
      | zero =>
          rcases List.mem_cons.mp hx with heq | h'
          · exact Or.inr heq
          · exact Or.inl (List.mem_cons_of_mem _ h')
      | succ j =>
          rcases List.mem_cons.mp hx with heq | h'
          · exact Or.inl (heq ▸ List.mem_cons_self _ _)
          · rcases ih j v x h' with h | h
            · exact Or.inl (List.mem_cons_of_mem _ h)
            · exact Or.inr h

theorem getD_set_self : ∀ (l : List GoStr) (i : Nat) (v : GoStr), i < l.length →
    (l.set i v).getD i [] = v := by
  intro l
  induction l with
  | nil => intro i v h; simp at h
  | cons a rest ih =>
      intro i v h
      cases i with
      | zero => rfl
      | succ j => exact ih j v (by simpa using h)

theorem countSOA_updateRecordData (tbl : List RRSet) (rid : Nat) (d : GoStr) (z : Nat) :
    countSOA (updateRecordData tbl rid d) z = countSOA tbl z := by
  unfold countSOA updateRecordData
  rw [List.filter_map, List.length_map]
  congr 1

theorem findSOA_updateRecordData (tbl : List RRSet) (rid : Nat) (d : GoStr) (z : Nat) :
    findSOA (updateRecordData tbl rid d) z =
      (findSOA tbl z).map (fun s =>
        { s with records := s.records.map (fun r =>
            if r.id = rid then { r with data := d } else r) }) := by
  unfold findSOA updateRecordData
  rw [List.find?_map]
  congr 1

/-! ## C2: SOA serial bump -/

/-- C2 (counterexample): a zone whose SOA record data has fewer than seven
whitespace-separated fields (a state reachable by writing such an RRSet
through the control plane) is left entirely unchanged by
`BumpSOASerialAuto`, although its serial field `"5"` is parsable: the
serial is neither incremented nor strictly increased by the mutation. -/
theorem C2_counterexample :
    BumpSOASerialAuto
      [{ zoneID := 1, name := gostr "example.com.", ty := gostr "SOA", ttl := 3600,
         records := [{ id := 7, data := gostr "ns1.example.com. hm.example.com. 5" }] }]
      ⟨1, gostr "example.com."⟩ true [] [] 1700000000 =
      [{ zoneID := 1, name := gostr "example.com.", ty := gostr "SOA", ttl := 3600,
         records := [{ id := 7, data := gostr "ns1.example.com. hm.example.com. 5" }] }] ∧
    parseInt64 ((soaSerial
      [{ zoneID := 1, name := gostr "example.com.", ty := gostr "SOA", ttl := 3600,
         records := [{ id := 7, data := gostr "ns1.example.com. hm.example.com. 5" }] }]
      1).getD []) = some 5 := by decide

/-- C2 (amended): with `auto_on_missing`, `BumpSOASerialAuto` after a
mutation maintains the SOA as follows.  If the zone has no SOA RRSet, it
creates exactly one, with the default timers and serial `now` (the Unix
epoch).  If the zone has exactly one SOA RRSet whose first record's data
has at least 7 whitespace-separated fields and a non-negative serial
parsable as int64 (below the maximum), the zone still has exactly one SOA
afterwards and its serial is the decimal of `n + 1` — strictly greater
than before.  (With fewer than 7 fields the bump is a no-op, and an
unparsable serial is reset to `now`.) -/
theorem C2_soa_bump (tbl : List RRSet) (z : Zone) (now : Int) :
    (∀ primary hostmaster, countSOA tbl z.id = 0 →
      countSOA (BumpSOASerialAuto tbl z true primary hostmaster now) z.id = 1 ∧
      findSOA (BumpSOASerialAuto tbl z true primary hostmaster now) z.id =
        some (defaultSOARRSet z primary hostmaster now)) ∧
    (∀ soa r0 rest n, findSOA tbl z.id = some soa → soa.records = r0 :: rest →
      countSOA tbl z.id = 1 → 7 ≤ (fields r0.data).length →
      parseInt64 ((fields r0.data).getD 2 []) = some n → 0 ≤ n →
      n + 1 ≤ 2 ^ 63 - 1 →
      countSOA (BumpSOASerialAuto tbl z true [] [] now) z.id = 1 ∧
      soaSerial (BumpSOASerialAuto tbl z true [] [] now) z.id =
        some (formatInt64 (n + 1)) ∧
      parseInt64 ((soaSerial (BumpSOASerialAuto tbl z true [] [] now) z.id).getD []) =
        some (n + 1)) := by
  constructor
  · intro primary hostmaster hcount
    have hnomatch : ∀ s ∈ tbl, ¬ (decide (s.zoneID = z.id ∧ s.ty = gostr "SOA") = true) := by
      intro s hs
      have := List.length_eq_zero.mp hcount
      intro hp
      have hmem : s ∈ tbl.filter (fun s => decide (s.zoneID = z.id ∧ s.ty = gostr "SOA")) :=
        List.mem_filter.mpr ⟨hs, hp⟩
      rw [this] at hmem
      simp at hmem
    have hfind : findSOA tbl z.id = none := by
      unfold findSOA
      exact List.find?_eq_none.mpr hnomatch
    have hany : (tbl.any (fun s => decide (s.zoneID = (defaultSOARRSet z primary hostmaster now).zoneID ∧
        s.name = (defaultSOARRSet z primary hostmaster now).name ∧
        s.ty = (defaultSOARRSet z primary hostmaster now).ty))) = false := by
      rw [List.any_eq_false]
      intro s hs
      have h1 := hnomatch s hs
      simp only [decide_eq_true_eq] at h1 ⊢
      intro ⟨ha, _, hc⟩
      exact h1 ⟨ha, hc⟩
    have hres : BumpSOASerialAuto tbl z true primary hostmaster now =
        tbl ++ [defaultSOARRSet z primary hostmaster now] := by
      unfold BumpSOASerialAuto
      rw [hfind]
      unfold createSOAIfAuto
      rw [if_neg (by simp)]
      dsimp only
      rw [hany]
      simp
    rw [hres]
    constructor
    · unfold countSOA at hcount ⊢
      rw [List.filter_append]
      have hone : ([defaultSOARRSet z primary hostmaster now].filter
          (fun s => decide (s.zoneID = z.id ∧ s.ty = gostr "SOA"))) =
          [defaultSOARRSet z primary hostmaster now] := by
        simp [defaultSOARRSet]
      rw [hone]
      simp only [List.length_append]
      rw [hcount]
      simp
    · unfold findSOA at hfind ⊢
      rw [List.find?_append, hfind]
      simp [defaultSOARRSet]
  · intro soa r0 rest n hfind hrec hcount hlen hparse hn0 hmax
    have hlow := parseInt64_lower_bound hparse
    have hwrap : wrap64 (n + 1) = n + 1 := wrap64_eq (by omega) (by omega)
    set newData := joinSpace ((fields r0.data).set 2 (formatInt64 (n + 1))) with hnew
    have hres : BumpSOASerialAuto tbl z true [] [] now =
        updateRecordData tbl r0.id newData := by
      unfold BumpSOASerialAuto
      rw [hfind]
      dsimp only
      rw [hrec]
      dsimp only
      rw [if_neg (by omega)]
      unfold bumpParts
      have hni : (([] : GoStr) ≠ []) = False := by simp
      simp only [hni, if_false]
      rw [hparse]
      dsimp only
      rw [hwrap]
    rw [hres]
    have hfmt : formatInt64 (n + 1) = formatNat (n + 1).toNat := by
      unfold formatInt64
      rw [if_neg (by omega)]
    have hfields : fields newData = (fields r0.data).set 2 (formatInt64 (n + 1)) := by
      rw [hnew]
      apply fields_joinSpace
      intro p hp
      rcases mem_set_cases _ _ _ _ hp with h | h
      · exact fields_props _ p h
      · subst h
        rw [hfmt]
        refine ⟨formatNat_ne_nil _, ?_⟩
        intro c hc
        have := formatNat_all_digits _ c hc
        simp only [isSpaceB]
        rw [decide_eq_false_iff_not]
        omega
    have hserial : soaSerial (updateRecordData tbl r0.id newData) z.id =
        some (formatInt64 (n + 1)) := by
      unfold soaSerial
      rw [findSOA_updateRecordData, hfind]
      simp only [Option.map_some']
      rw [hrec]
      simp only [List.map_cons]
      simp only [if_true]
      rw [hfields]
      rw [getD_set_self _ _ _ (by omega)]
    refine ⟨by rw [countSOA_updateRecordData]; exact hcount, hserial, ?_⟩
    rw [hserial]
    simp only [Option.getD_some]
    rw [hfmt, parse_formatNat _ (by omega)]
    congr 1
    omega

/-- C2 witness: the amended theorem at a concrete empty zone (SOA created
with serial = epoch) and at a concrete well-formed SOA (serial 5 becomes
6). -/
theorem C2_witness :
    countSOA (BumpSOASerialAuto [] ⟨1, gostr "example.com."⟩ true [] [] 99) 1 = 1 ∧
    soaSerial (BumpSOASerialAuto
      [{ zoneID := 1, name := gostr "example.com.", ty := gostr "SOA", ttl := 3600,
         records := [{ id := 7, data := gostr "ns1. hm. 5 7200 3600 1209600 300" }] }]
      ⟨1, gostr "example.com."⟩ true [] [] 99) 1 = some (formatInt64 6) := by
  constructor
  · exact ((C2_soa_bump [] ⟨1, gostr "example.com."⟩ 99).1 [] [] (by decide)).1
  · exact ((C2_soa_bump
      [{ zoneID := 1, name := gostr "example.com.", ty := gostr "SOA", ttl := 3600,
         records := [{ id := 7, data := gostr "ns1. hm. 5 7200 3600 1209600 300" }] }]
      ⟨1, gostr "example.com."⟩ 99).2
      { zoneID := 1, name := gostr "example.com.", ty := gostr "SOA", ttl := 3600,
        records := [{ id := 7, data := gostr "ns1. hm. 5 7200 3600 1209600 300" }] }
      { id := 7, data := gostr "ns1. hm. 5 7200 3600 1209600 300" } [] 5
      (by decide) (by decide) (by decide) (by decide) (by decide) (by decide)
      (by norm_num)).2.1

/-! ## C3: JSON import, replace and upsert modes -/

theorem normalizeIncoming_some {dstID : Nat} {dstName : GoStr} {dTTL : Nat}
    {rs n : RRSet} (h : normalizeIncoming dstID dstName dTTL rs = some n) :
    ∃ nm, NormalizeRRSetName rs.name dstName = some nm ∧
      n = { zoneID := dstID, name := nm, ty := toUpperL rs.ty,
            ttl := if rs.ttl = 0 ∧ dTTL > 0 then dTTL else rs.ttl,
            records := rs.records.map (fun r => { r with id := 0 }) } := by
  unfold normalizeIncoming at h
  cases hx : NormalizeRRSetName rs.name dstName with
  | none => rw [hx] at h; simp at h
  | some nm =>
      rw [hx] at h
      simp only [Option.map_some'] at h
      exact ⟨nm, rfl, (Option.some.inj h).symm⟩

theorem normalizeList_zoneID (dstID : Nat) (dstName : GoStr) (dTTL : Nat) :
    ∀ (src nsrc : List RRSet),
      normalizeList dstID dstName dTTL src = some nsrc →
      ∀ n ∈ nsrc, n.zoneID = dstID := by
  intro src
  induction src with
  | nil =>
      intro nsrc h n hn
      simp only [normalizeList, Option.some.injEq] at h
      subst h
      simp at hn
  | cons rs rest ih =>
      intro nsrc h n hn
      simp only [normalizeList] at h
      cases hni : normalizeIncoming dstID dstName dTTL rs with
      | none => rw [hni] at h; simp at h
      | some m =>
          cases hnr : normalizeList dstID dstName dTTL rest with
          | none => rw [hni, hnr] at h; simp at h
          | some ms =>
              rw [hni, hnr] at h
              simp only [Option.some.injEq] at h
              subst h
              rcases List.mem_cons.mp hn with heq | hn'
              · subst heq
                obtain ⟨nm, _, hm⟩ := normalizeIncoming_some hni
                rw [hm]
              · exact ih ms hnr n hn'

theorem importLoop_eq_upsertLoop (dstID : Nat) (dstName : GoStr) (dTTL : Nat) :
    ∀ (src nsrc tbl : List RRSet),
      normalizeList dstID dstName dTTL src = some nsrc →
      importLoop dstID dstName dTTL tbl src = some (upsertLoop dstID tbl nsrc) := by
  intro src
  induction src with
  | nil =>
      intro nsrc tbl h
      simp only [normalizeList, Option.some.injEq] at h
      subst h
      rfl
  | cons rs rest ih =>
      intro nsrc tbl h
      simp only [normalizeList] at h
      cases hni : normalizeIncoming dstID dstName dTTL rs with
      | none => rw [hni] at h; simp at h
      | some m =>
          cases hnr : normalizeList dstID dstName dTTL rest with
          | none => rw [hni, hnr] at h; simp at h
          | some ms =>
              rw [hni, hnr] at h
              simp only [Option.some.injEq] at h
              subst h
              obtain ⟨nm, hnm, hm⟩ := normalizeIncoming_some hni
              simp only [importLoop, hnm]
              subst hm
              cases hf : findRRSet tbl dstID nm (toUpperL rs.ty) with
              | some s0 =>
                  simp only [hf]
                  rw [ih ms _ hnr]
                  simp only [upsertLoop, hf, Option.isSome_some, if_true]
              | none =>
                  simp only [hf]
                  rw [ih ms _ hnr]
                  simp only [upsertLoop, hf, Option.isSome_none, Bool.false_eq_true,
                    if_false]

theorem updateRRSet_eq_map (dstID : Nat) (nm ty : GoStr) (ttl : Nat)
    (recs : List RData) :
    ∀ tbl : List RRSet,
      (tbl.filter (fun s =>
        decide (s.zoneID = dstID ∧ s.name = nm ∧ s.ty = ty))).length ≤ 1 →
      updateRRSet dstID nm ty ttl recs tbl =
        tbl.map (updKey dstID nm ty ttl recs) := by
  intro tbl
  induction tbl with
  | nil => intro _; rfl
  | cons s rest ih =>
      intro h
      simp only [updateRRSet, List.map_cons, updKey]
      by_cases hs : s.zoneID = dstID ∧ s.name = nm ∧ s.ty = ty
      · rw [if_pos hs, if_pos hs]
        congr 1
        have hrest : ∀ x ∈ rest, ¬(x.zoneID = dstID ∧ x.name = nm ∧ x.ty = ty) := by
          intro x hx hmatch
          have hcons : (List.filter (fun s =>
              decide (s.zoneID = dstID ∧ s.name = nm ∧ s.ty = ty)) (s :: rest)).length =
              1 + (List.filter (fun s =>
                decide (s.zoneID = dstID ∧ s.name = nm ∧ s.ty = ty)) rest).length := by
            rw [List.filter_cons, if_pos (by simpa using hs)]
            simp [Nat.add_comm]
          have hxmem : x ∈ List.filter (fun s =>
              decide (s.zoneID = dstID ∧ s.name = nm ∧ s.ty = ty)) rest :=
            List.mem_filter.mpr ⟨hx, by simpa using hmatch⟩
          have hpos : 1 ≤ (List.filter (fun s =>
              decide (s.zoneID = dstID ∧ s.name = nm ∧ s.ty = ty)) rest).length :=
            List.length_pos.mpr (List.ne_nil_of_mem hxmem)
          omega
        calc rest = List.map id rest := (List.map_id rest).symm
        _ = _ := List.map_congr_left (fun x hx => (if_neg (hrest x hx)).symm)
      · rw [if_neg hs, if_neg hs]
        congr 1
        apply ih
        have hcons : (List.filter (fun s =>
            decide (s.zoneID = dstID ∧ s.name = nm ∧ s.ty = ty)) (s :: rest)) =
            List.filter (fun s =>
              decide (s.zoneID = dstID ∧ s.name = nm ∧ s.ty = ty)) rest := by
          rw [List.filter_cons, if_neg (by simpa using hs)]
        rw [hcons] at h
        exact h

theorem updKey_fields (dstID : Nat) (nm ty : GoStr) (ttl : Nat) (recs : List RData)
    (s : RRSet) :
    (updKey dstID nm ty ttl recs s).zoneID = s.zoneID ∧
    (updKey dstID nm ty ttl recs s).name = s.name ∧
    (updKey dstID nm ty ttl recs s).ty = s.ty := by
  unfold updKey
  split <;> simp

theorem keyPred_comp_updKey (dstID : Nat) (nm ty : GoStr) (ttl : Nat)
    (recs : List RData) (z : Nat) (nm' ty' : GoStr) :
    ((fun s : RRSet => decide (s.zoneID = z ∧ s.name = nm' ∧ s.ty = ty')) ∘
        updKey dstID nm ty ttl recs) =
      (fun s : RRSet => decide (s.zoneID = z ∧ s.name = nm' ∧ s.ty = ty')) := by
  funext s
  obtain ⟨h1, h2, h3⟩ := updKey_fields dstID nm ty ttl recs s
  simp [Function.comp, h1, h2, h3]

theorem keyUnique_map_updKey {dstID : Nat} {tbl : List RRSet}
    (h : KeyUnique dstID tbl) (nm ty : GoStr) (ttl : Nat) (recs : List RData) :
    KeyUnique dstID (tbl.map (updKey dstID nm ty ttl recs)) := by
  intro nm' ty'
  rw [List.filter_map, List.length_map, keyPred_comp_updKey]
  exact h nm' ty'

theorem notInTbl_map_updKey (dstID : Nat) (tbl : List RRSet) (nm ty : GoStr)
    (ttl : Nat) (recs : List RData) (m : RRSet) :
    notInTbl dstID (tbl.map (updKey dstID nm ty ttl recs)) m = notInTbl dstID tbl m := by
  unfold notInTbl
  rw [List.any_map, keyPred_comp_updKey]

theorem specMapF_nil (dstID : Nat) (s : RRSet) : specMapF dstID [] s = s := by
  unfold specMapF
  split <;> rfl

theorem upsertSpec_nil (tbl : List RRSet) (dstID : Nat) : upsertSpec tbl dstID [] = tbl := by
  unfold upsertSpec
  simp only [List.filter_nil, List.append_nil]
  calc tbl.map (specMapF dstID [])
      = tbl.map id := List.map_congr_left (fun s _ => specMapF_nil dstID s)
  _ = tbl := List.map_id tbl

theorem keyUnique_append_single {dstID : Nat} {tbl : List RRSet} {n : RRSet}
    (h : KeyUnique dstID tbl)
    (hf : findRRSet tbl dstID n.name n.ty = none) : KeyUnique dstID (tbl ++ [n]) := by
  intro nm ty
  rw [List.filter_append, List.length_append]
  by_cases hk : n.zoneID = dstID ∧ n.name = nm ∧ n.ty = ty
  · have h0 : (tbl.filter (fun s =>
        decide (s.zoneID = dstID ∧ s.name = nm ∧ s.ty = ty))).length = 0 := by
      rw [List.length_eq_zero, List.filter_eq_nil_iff]
      intro s hs hps
      have hnone := List.find?_eq_none.mp hf s hs
      apply hnone
      simp only [decide_eq_true_eq] at hps ⊢
      exact ⟨hps.1, hk.2.1 ▸ hps.2.1, hk.2.2 ▸ hps.2.2⟩
    have h1 := List.length_filter_le (fun s : RRSet =>
      decide (s.zoneID = dstID ∧ s.name = nm ∧ s.ty = ty)) [n]
    simp only [List.length_singleton] at h1
    omega
  · have h1 : (List.filter (fun s =>
        decide (s.zoneID = dstID ∧ s.name = nm ∧ s.ty = ty)) [n]).length = 0 := by
      simp only [List.filter_cons, List.filter_nil]
      rw [if_neg (by simpa using hk)]
      rfl
    have := h nm ty
    omega

theorem upsertLoop_eq_upsertSpec (dstID : Nat) :
    ∀ (nsrc tbl : List RRSet),
      KeyUnique dstID tbl →
      (∀ n ∈ nsrc, n.zoneID = dstID) →
      nsrc.Pairwise (fun a b => ¬(a.name = b.name ∧ a.ty = b.ty)) →
      upsertLoop dstID tbl nsrc = upsertSpec tbl dstID nsrc := by
  intro nsrc
  induction nsrc with
  | nil =>
      intro tbl _ _ _
      simp only [upsertLoop]
      rw [upsertSpec_nil]
  | cons n rest ih =>
      intro tbl hun hz hpw
      have hzn : n.zoneID = dstID := hz n (List.mem_cons_self _ _)
      have hpw_head : ∀ b ∈ rest, ¬(n.name = b.name ∧ n.ty = b.ty) :=
        (List.pairwise_cons.mp hpw).1
      have hpw_rest := (List.pairwise_cons.mp hpw).2
      have hz_rest : ∀ m ∈ rest, m.zoneID = dstID :=
        fun m hm => hz m (List.mem_cons_of_mem _ hm)
      simp only [upsertLoop]
      cases hf : findRRSet tbl dstID n.name n.ty with
      | some s0 =>
          simp only [hf, Option.isSome_some, if_true]
          have hmapu := updateRRSet_eq_map dstID n.name n.ty n.ttl n.records tbl
            (hun n.name n.ty)
          rw [hmapu,
            ih (tbl.map (updKey dstID n.name n.ty n.ttl n.records)) (keyUnique_map_updKey hun _ _ _ _) hz_rest hpw_rest]
          unfold upsertSpec
          have hmapEq : (tbl.map (updKey dstID n.name n.ty n.ttl n.records)).map
              (specMapF dstID rest) = tbl.map (specMapF dstID (n :: rest)) := by
            rw [List.map_map]
            apply List.map_congr_left
            intro s _
            simp only [Function.comp_apply]
            by_cases h1 : s.zoneID = dstID
            · by_cases h2 : s.name = n.name ∧ s.ty = n.ty
              · have hu : updKey dstID n.name n.ty n.ttl n.records s =
                    { s with ttl := n.ttl, records := n.records } := by
                  unfold updKey
                  exact if_pos ⟨h1, h2.1, h2.2⟩
                rw [hu]
                unfold specMapF
                dsimp only
                rw [if_pos h1, if_pos h1]
                have hfr : rest.find? (fun m => m.name == s.name && m.ty == s.ty) =
                    none := by
                  apply List.find?_eq_none.mpr
                  intro m hm
                  simp only [Bool.and_eq_true, beq_iff_eq, not_and]
                  intro ha hb
                  exact absurd ⟨h2.1 ▸ ha.symm, h2.2 ▸ hb.symm⟩ (hpw_head m hm)
                have hfn : (n :: rest).find? (fun m => m.name == s.name && m.ty == s.ty) =
                    some n := by
                  rw [List.find?_cons_of_pos]
                  simp only [Bool.and_eq_true, beq_iff_eq]
                  exact ⟨h2.1.symm, h2.2.symm⟩
                rw [hfr, hfn]
              · have hu : updKey dstID n.name n.ty n.ttl n.records s = s := by
                  unfold updKey
                  exact if_neg (fun ⟨_, hb, hc⟩ => h2 ⟨hb, hc⟩)
                rw [hu]
                unfold specMapF
                rw [List.find?_cons_of_neg]
                simp only [Bool.and_eq_true, beq_iff_eq, not_and]
                intro ha hb
                exact absurd ⟨ha.symm, hb.symm⟩ h2
            · have hu : updKey dstID n.name n.ty n.ttl n.records s = s := by
                unfold updKey
                exact if_neg (fun ⟨ha, _⟩ => h1 ha)
              rw [hu]
              unfold specMapF
              rw [if_neg h1, if_neg h1]
          have hfiltEq : rest.filter (notInTbl dstID
              (tbl.map (updKey dstID n.name n.ty n.ttl n.records))) =
              rest.filter (notInTbl dstID tbl) :=
            List.filter_congr (fun m _ => notInTbl_map_updKey dstID tbl _ _ _ _ m)
          have hany : tbl.any (fun s =>
              decide (s.zoneID = dstID ∧ s.name = n.name ∧ s.ty = n.ty)) = true := by
            have hf' := hf
            unfold findRRSet at hf'
            have hp := List.find?_some hf'
            rw [List.any_eq_true]
            exact ⟨s0, List.mem_of_find?_eq_some hf', hp⟩
          have hdropn : (n :: rest).filter (notInTbl dstID tbl) =
              rest.filter (notInTbl dstID tbl) := by
            rw [List.filter_cons, if_neg]
            simp only [notInTbl, hany]
            simp
          rw [hmapEq, hfiltEq, hdropn]
      | none =>
          simp only [hf, Option.isSome_none, Bool.false_eq_true, if_false]
          rw [ih (tbl ++ [n]) (keyUnique_append_single hun hf) hz_rest hpw_rest]
          unfold upsertSpec
          have hnomatch : ∀ s ∈ tbl,
              ¬(s.zoneID = dstID ∧ s.name = n.name ∧ s.ty = n.ty) := by
            intro s hs
            have := List.find?_eq_none.mp hf s hs
            simpa using this
          have hspecn : specMapF dstID rest n = n := by
            unfold specMapF
            rw [if_pos hzn]
            have hfr : rest.find? (fun m => m.name == n.name && m.ty == n.ty) = none := by
              apply List.find?_eq_none.mpr
              intro m hm
              simp only [Bool.and_eq_true, beq_iff_eq, not_and]
              intro ha hb
              exact absurd ⟨ha.symm, hb.symm⟩ (hpw_head m hm)
            rw [hfr]
          have hmapEq : tbl.map (specMapF dstID (n :: rest)) =
              tbl.map (specMapF dstID rest) := by
            apply List.map_congr_left
            intro s hs
            unfold specMapF
            by_cases h1 : s.zoneID = dstID
            · rw [if_pos h1, if_pos h1, List.find?_cons_of_neg]
              simp only [Bool.and_eq_true, beq_iff_eq, not_and]
              intro ha hb
              exact hnomatch s hs ⟨h1, ha.symm, hb.symm⟩
            · rw [if_neg h1, if_neg h1]
          have hfiltEq : rest.filter (notInTbl dstID (tbl ++ [n])) =
              rest.filter (notInTbl dstID tbl) := by
            apply List.filter_congr
            intro m hm
            unfold notInTbl
            rw [List.any_append]
            have hone : ([n].any (fun s =>
                decide (s.zoneID = dstID ∧ s.name = m.name ∧ s.ty = m.ty))) = false := by
              simp only [List.any_cons, List.any_nil, Bool.or_false, decide_eq_false_iff_not,
                not_and]
              intro _ hb hc
              exact absurd ⟨hb, hc⟩ (hpw_head m hm)
            rw [hone, Bool.or_false]
          have hkeepn : (n :: rest).filter (notInTbl dstID tbl) =
              n :: rest.filter (notInTbl dstID tbl) := by
            rw [List.filter_cons, if_pos]
            have hany : tbl.any (fun s =>
                decide (s.zoneID = dstID ∧ s.name = n.name ∧ s.ty = n.ty)) = false := by
              rw [List.any_eq_false]
              intro s hs
              simpa using hnomatch s hs
            unfold notInTbl
            rw [hany]
            decide
          rw [List.map_append, hmapEq, hfiltEq, hkeepn]
          simp only [List.map_cons, List.map_nil, hspecn]
          rw [List.append_cons (tbl.map (specMapF dstID rest)) n
            (rest.filter (notInTbl dstID tbl))]

/-- **C3.** `ImportJSON` behaves as the spec describes in both modes.  In
`replace` mode the committed table is the old table with every row of the
destination zone removed and exactly the normalized incoming RRSets
appended (rows of other zones untouched).  In `upsert` mode each stored
row of the zone whose `(name, type)` key matches an incoming RRSet gets
the incoming TTL and records, every other stored row is untouched, and
each unmatched incoming RRSet is created — provided every incoming name
normalizes against the zone, the normalized incoming keys are pairwise
distinct, and the store respects the unique `(zone_id, name, type)`
index. -/
theorem C3_ImportJSON_modes (tbl : List RRSet) (dst : Zone) (src nsrc : List RRSet)
    (dTTL : Nat)
    (hnorm : normalizeList dst.id dst.name dTTL src = some nsrc)
    (hpw : nsrc.Pairwise (fun a b => ¬(a.name = b.name ∧ a.ty = b.ty)))
    (hun : KeyUnique dst.id tbl) :
    ImportJSON tbl dst src (gostr "replace") dTTL =
      some (tbl.filter (fun s => s.zoneID ≠ dst.id) ++ nsrc) ∧
    ImportJSON tbl dst src (gostr "upsert") dTTL =
      some (upsertSpec tbl dst.id nsrc) := by
  have hz := normalizeList_zoneID dst.id dst.name dTTL src nsrc hnorm
  have hzfree : ∀ s ∈ tbl.filter (fun s => s.zoneID ≠ dst.id), ¬ s.zoneID = dst.id := by
    intro s hs
    have h := (List.mem_filter.mp hs).2
    simpa using h
  constructor
  · unfold ImportJSON
    dsimp only
    rw [if_pos rfl]
    rw [importLoop_eq_upsertLoop dst.id dst.name dTTL src nsrc _ hnorm]
    have hun' : KeyUnique dst.id (tbl.filter (fun s => s.zoneID ≠ dst.id)) := by
      intro nm ty
      have hnil : (tbl.filter (fun s => s.zoneID ≠ dst.id)).filter (fun s =>
          decide (s.zoneID = dst.id ∧ s.name = nm ∧ s.ty = ty)) = [] := by
        rw [List.filter_eq_nil_iff]
        intro s hs hp
        simp only [decide_eq_true_eq] at hp
        exact hzfree s hs hp.1
      rw [hnil]
      decide
    rw [upsertLoop_eq_upsertSpec dst.id nsrc _ hun' hz hpw]
    unfold upsertSpec
    have hmap : (tbl.filter (fun s => s.zoneID ≠ dst.id)).map (specMapF dst.id nsrc) =
        tbl.filter (fun s => s.zoneID ≠ dst.id) := by
      calc (tbl.filter (fun s => s.zoneID ≠ dst.id)).map (specMapF dst.id nsrc)
          = (tbl.filter (fun s => s.zoneID ≠ dst.id)).map id :=
            List.map_congr_left (fun s hs => by
              unfold specMapF
              rw [if_neg (hzfree s hs)]
              rfl)
      _ = _ := List.map_id _
    have hfilt : nsrc.filter (notInTbl dst.id (tbl.filter (fun s => s.zoneID ≠ dst.id))) =
        nsrc := by
      apply List.filter_eq_self.mpr
      intro n hn
      have hany : (tbl.filter (fun s => s.zoneID ≠ dst.id)).any (fun s =>
          decide (s.zoneID = dst.id ∧ s.name = n.name ∧ s.ty = n.ty)) = false := by
        rw [List.any_eq_false]
        intro s hs
        simp only [decide_eq_true_eq, not_and]
        intro h1
        exact absurd h1 (hzfree s hs)
      unfold notInTbl
      rw [hany]
      decide
    rw [hmap, hfilt]
  · unfold ImportJSON
    dsimp only
    rw [if_neg (by decide)]
    rw [importLoop_eq_upsertLoop dst.id dst.name dTTL src nsrc _ hnorm]
    rw [upsertLoop_eq_upsertSpec dst.id nsrc _ hun hz hpw]

/-- Witness for C3: the import model evaluated at a concrete store, zone
and payload, in both modes. -/
theorem C3_witness :
    normalizeList 1 (gostr "example.com.") 120 c3src = some c3nsrc ∧
    (ImportJSON c3tbl ⟨1, gostr "example.com."⟩ c3src (gostr "replace") 120 =
      some (c3tbl.filter (fun s => s.zoneID ≠ (1 : Nat)) ++ c3nsrc) ∧
    ImportJSON c3tbl ⟨1, gostr "example.com."⟩ c3src (gostr "upsert") 120 =
      some (upsertSpec c3tbl 1 c3nsrc)) :=
  ⟨by decide,
   C3_ImportJSON_modes c3tbl ⟨1, gostr "example.com."⟩ c3src c3nsrc 120
     (by decide) (by simp [c3nsrc])
     (fun nm ty => le_trans (List.length_filter_le _ _) (by decide))⟩

end Namedot
